import Mathlib

/-!
Shallow embedding of the szsol-rs solitaire engine (src/card.rs, src/board.rs).

Machine integers (`u8`, `usize`) are modelled as `Nat`; card values in a valid
deck are 1..9 so no overflow arises on the modelled paths.  `Vec<Card>` columns
are Lean `List Card` (index 0 = bottom, last = top, matching `Vec::push`/`pop`).
Fixed-size arrays (`[T; 8]`, `[T; 3]`) are Lean lists whose length is tracked by
the well-formedness predicate `Board.WF`; reads use `List.getD` and writes use
`List.set`, which agree with Rust indexing on all in-range indices (the claims
quantify over in-range indices only; out-of-range indexing panics in Rust).
Rust methods taking `&mut self` and returning `Result<(), &str>` become
functions `Board → ... → Board × Except String Unit`: the first component is
the state of `self` after the call returns (or, on a `panic!`-equivalent path,
the state at the moment of the panic), the second the returned `Result`.
Panic sites (`unwrap`, `expect`, `unreachable!`) are modelled as `.error`
results tagged "panic:"; each such branch is proved unreachable below.
-/

namespace Szsol

/-- src/card.rs: `enum Suit { Red, Green, Black }` -/
inductive Suit where
  | Red
  | Green
  | Black
deriving DecidableEq, Repr

/-- src/card.rs: `Suit::ALL`, the three suits in canonical order. -/
def Suit.ALL : List Suit := [Suit.Red, Suit.Green, Suit.Black]

/-- src/card.rs: `enum Card { Numbered(Suit, u8), Dragon(Suit), Flower }` -/
inductive Card where
  | Numbered (s : Suit) (v : Nat)
  | Dragon (s : Suit)
  | Flower
deriving DecidableEq, Repr

/-- src/card.rs: `Card::can_stack_on`: numbered on numbered, different suit,
value exactly one less. -/
def Card.can_stack_on : Card → Card → Bool
  | Card.Numbered s1 v1, Card.Numbered s2 v2 => s1 ≠ s2 && v1 + 1 == v2
  | _, _ => false

/-- src/card.rs: `full_deck()` — 9 numbered + 4 dragons per suit, then the
flower; 40 cards in deal order. -/
def full_deck : List Card :=
  (Suit.ALL.flatMap (fun suit =>
    ((List.range 9).map (fun i => Card.Numbered suit (i + 1)))
      ++ (List.replicate 4 (Card.Dragon suit))))
  ++ [Card.Flower]

/-- src/board.rs: `NUM_COLUMNS` -/
def NUM_COLUMNS : Nat := 8
/-- src/board.rs: `NUM_FREE_CELLS` -/
def NUM_FREE_CELLS : Nat := 3
/-- src/board.rs: `NUM_FOUNDATIONS` -/
def NUM_FOUNDATIONS : Nat := 3

/-- src/board.rs: `enum FreeCellState { Empty, Card(Card), DragonLocked(Suit) }` -/
inductive FreeCellState where
  | Empty
  | Card (c : Card)
  | DragonLocked (s : Suit)
deriving DecidableEq, Repr

/-- src/board.rs: `FreeCellState::is_empty` -/
def FreeCellState.is_empty : FreeCellState → Bool
  | FreeCellState.Empty => true
  | _ => false

/-- src/board.rs: `FreeCellState::card` -/
def FreeCellState.card : FreeCellState → Option Szsol.Card
  | FreeCellState.Card c => some c
  | _ => none

/-- src/board.rs: `enum Location { Column(usize), FreeCell(usize) }` -/
inductive Location where
  | Column (i : Nat)
  | FreeCell (i : Nat)
deriving DecidableEq, Repr

/-- src/board.rs: `struct Board` — 8 columns, 3 free cells, 3 foundation
counters, flower flag. -/
structure Board where
  columns : List (List Card)
  free_cells : List FreeCellState
  foundations : List Nat
  flower_placed : Bool
deriving DecidableEq, Repr

/-- The fixed array sizes of the Rust `Board` ([Vec<Card>; 8],
[FreeCellState; 3], [u8; 3]). -/
def Board.WF (b : Board) : Prop :=
  b.columns.length = NUM_COLUMNS ∧ b.free_cells.length = NUM_FREE_CELLS
    ∧ b.foundations.length = NUM_FOUNDATIONS

instance (b : Board) : Decidable b.WF := by
  unfold Board.WF; infer_instance

/-- src/board.rs: `suit_index` — maps a suit to its array index. -/
def suit_index : Suit → Nat
  | Suit.Red => 0
  | Suit.Green => 1
  | Suit.Black => 2

/-- src/board.rs: `Board::deal_from_deck` — round-robin distribution of the
deck across the 8 columns (`columns[i % NUM_COLUMNS].push(card)`).
The Rust `assert_eq!(deck.len(), 40)` is a panic on any other length; the
claims below always supply 40-card decks. -/
def dealStep (cols : List (List Card)) (p : Nat × Card) : List (List Card) :=
  cols.set (p.1 % NUM_COLUMNS) ((cols.getD (p.1 % NUM_COLUMNS) []) ++ [p.2])

def Board.deal_from_deck (deck : List Card) : Board :=
  { columns := deck.enum.foldl dealStep (List.replicate NUM_COLUMNS [])
    free_cells := List.replicate NUM_FREE_CELLS FreeCellState.Empty
    foundations := List.replicate NUM_FOUNDATIONS 0
    flower_placed := false }

/-- src/board.rs: `Board::column_top` — `self.columns[col].last().copied()`. -/
def Board.column_top (b : Board) (col : Nat) : Option Card :=
  (b.columns.getD col []).getLast?

/-- src/board.rs: `Board::free_cell_card` -/
def Board.free_cell_card (b : Board) (slot : Nat) : Option Card :=
  (b.free_cells.getD slot FreeCellState.Empty).card

/-- src/board.rs: `Board::card_at` -/
def Board.card_at (b : Board) : Location → Option Card
  | Location.Column c => b.column_top c
  | Location.FreeCell f => b.free_cell_card f

/-- Rust `usize::MAX`, used by `can_move` as a sentinel that never equals a
column index. -/
def USIZE_MAX : Nat := 2 ^ 64 - 1

/-- src/board.rs: `Board::can_move` — can the top card of `src` move to `dst`? -/
def Board.can_move (b : Board) (src dst : Location) : Bool :=
  match b.card_at src with
  | none => false
  | some card =>
    match dst with
    | Location.FreeCell f => (b.free_cells.getD f FreeCellState.Empty).is_empty
    | Location.Column c =>
      if c = (match src with | Location.Column sc => sc | _ => USIZE_MAX) then
        false
      else
        match b.column_top c with
        | none => true
        | some top => card.can_stack_on top

/-- src/board.rs: `Board::can_move_to_foundation` -/
def Board.can_move_to_foundation (b : Board) (src : Location) : Bool :=
  match b.card_at src with
  | some Card.Flower => !b.flower_placed
  | some (Card.Numbered suit v) =>
      b.foundations.getD (suit_index suit) 0 + 1 == v
  | _ => false

/-- src/board.rs: `Board::take_card` — pops the top of a column, or clears an
occupied free cell; returns the removed card (if any) and the new state. -/
def Board.take_card (b : Board) : Location → Option Card × Board
  | Location.Column c =>
      ((b.columns.getD c []).getLast?,
        { b with columns := b.columns.set c (b.columns.getD c []).dropLast })
  | Location.FreeCell f =>
      let card := (b.free_cells.getD f FreeCellState.Empty).card
      (card,
        if card.isSome then
          { b with free_cells := b.free_cells.set f FreeCellState.Empty }
        else b)

/-- src/board.rs: `Board::place_card` — push onto a column or occupy a free
cell. -/
def Board.place_card (b : Board) (loc : Location) (card : Card) : Board :=
  match loc with
  | Location.Column c =>
      { b with columns := b.columns.set c ((b.columns.getD c []) ++ [card]) }
  | Location.FreeCell f =>
      { b with free_cells := b.free_cells.set f (FreeCellState.Card card) }

/-- src/board.rs: `Board::move_card`. The `unwrap` on `take_card` is the
"panic:" branch; `can_move` guarantees it is never taken. -/
def Board.move_card (b : Board) (src dst : Location) : Board × Except String Unit :=
  if !b.can_move src dst then (b, Except.error "Illegal move")
  else
    match b.take_card src with
    | (some card, b1) => ((b1.place_card dst card), Except.ok ())
    | (none, b1) => (b1, Except.error "panic: unwrap on None")

/-- src/board.rs: `Board::move_to_foundation`. The `unwrap`/`unreachable!`
branches are the "panic:" cases; `can_move_to_foundation` rules them out. -/
def Board.move_to_foundation (b : Board) (src : Location) : Board × Except String Unit :=
  if !b.can_move_to_foundation src then
    (b, Except.error "Card cannot go to foundation yet")
  else
    match b.take_card src with
    | (some Card.Flower, b1) => ({ b1 with flower_placed := true }, Except.ok ())
    | (some (Card.Numbered suit _), b1) =>
        let fs := b1.foundations.set (suit_index suit)
          (b1.foundations.getD (suit_index suit) 0 + 1)
        ({ b1 with foundations := fs }, Except.ok ())
    | (some _, b1) => (b1, Except.error "panic: unreachable")
    | (none, b1) => (b1, Except.error "panic: unwrap on None")

/-- src/board.rs: `Board::count_exposed_dragons` — column tops plus free
cells holding the dragon. -/
def Board.count_exposed_dragons (b : Board) (suit : Suit) : Nat :=
  (b.columns.countP (fun col => col.getLast? == some (Card.Dragon suit)))
    + (b.free_cells.countP (fun fc => fc == FreeCellState.Card (Card.Dragon suit)))

/-- src/board.rs: `Board::can_merge_dragons` — a receiving slot exists (empty
or holding this dragon) and exactly four dragons of the suit are exposed (the
trailing `<= 4` filter in the source is always true and kept verbatim). -/
def Board.can_merge_dragons (b : Board) (suit : Suit) : Bool :=
  let dragon := Card.Dragon suit
  let has_slot := b.free_cells.any
    (fun fc => fc.is_empty || fc == FreeCellState.Card dragon)
  if !has_slot then false
  else
    b.count_exposed_dragons suit == 4
      && b.free_cells.countP (fun fc => fc == FreeCellState.Card dragon) ≤ 4

/-- The `find empty, lock it` step of `merge_dragons`: replace the first
`Empty` slot with `DragonLocked suit`; `none` when no slot is empty (the Rust
`expect` would panic). -/
def lockFirstEmpty : List FreeCellState → Suit → Option (List FreeCellState)
  | [], _ => none
  | fc :: rest, s =>
      if fc.is_empty then some (FreeCellState.DragonLocked s :: rest)
      else (lockFirstEmpty rest s).map (fun r => fc :: r)

/-- The per-column action of `merge_dragons`'s first loop: pop the top card
when it is the given dragon. -/
def popDragonTop (dragon : Card) (col : List Card) : List Card :=
  if col.getLast? == some dragon then col.dropLast else col

/-- The per-cell action of `merge_dragons`'s second loop: clear a cell holding
the given dragon. -/
def clearDragonCell (dragon : Card) (fc : FreeCellState) : FreeCellState :=
  if fc == FreeCellState.Card dragon then FreeCellState.Empty else fc

/-- src/board.rs: `Board::merge_dragons` — pop each dragon-topped column,
clear each dragon-holding free cell, then lock the first empty cell. -/
def Board.merge_dragons (b : Board) (suit : Suit) : Board × Except String Unit :=
  if !b.can_merge_dragons suit then
    (b, Except.error "Cannot merge dragons: not all four are exposed or no free cell")
  else
    let dragon := Card.Dragon suit
    let cols := b.columns.map (popDragonTop dragon)
    let cells := b.free_cells.map (clearDragonCell dragon)
    match lockFirstEmpty cells suit with
    | some cells2 => ({ b with columns := cols, free_cells := cells2 }, Except.ok ())
    | none => ({ b with columns := cols, free_cells := cells },
        Except.error "panic: expect, no free slot")

/-- src/board.rs: `Board::is_safe_to_auto` — the flower, or a numbered card
with `v <= min(foundations) + 1 || v == 1`. -/
def Board.is_safe_to_auto (b : Board) (src : Location) : Bool :=
  match b.card_at src with
  | some Card.Flower => true
  | some (Card.Numbered _ v) =>
      let min_found := (b.foundations.min?).getD 0
      v ≤ min_found + 1 || v == 1
  | _ => false

/-- The source list scanned by each `auto_move` pass: all 8 column tops then
all 3 free cells, in index order. -/
def autoSources : List Location :=
  ((List.range NUM_COLUMNS).map Location.Column)
    ++ ((List.range NUM_FREE_CELLS).map Location.FreeCell)

/-- The body of `auto_move`'s inner `for` loop: move the source's card to the
foundation, and count it, when it is eligible and safe. -/
def autoStep (st : Board × Nat) (src : Location) : Board × Nat :=
  if st.1.can_move_to_foundation src && st.1.is_safe_to_auto src then
    ((st.1.move_to_foundation src).1, st.2 + 1)
  else st

/-- One pass of `auto_move`'s inner `for` loop: scan the sources in order on
the current board, moving each eligible-and-safe card to the foundation and
counting it. -/
def Board.auto_pass (b : Board) : Board × Nat :=
  autoSources.foldl autoStep (b, 0)

/-- Total number of cards sitting in columns and free cells; each successful
foundation move decreases it by one, which bounds the number of productive
`auto_move` passes. -/
def Board.cardCount (b : Board) : Nat :=
  (b.columns.map List.length).sum
    + b.free_cells.countP (fun fc => fc.card.isSome)

/-- The `loop` of `auto_move`, with explicit fuel: repeat passes until a pass
moves nothing.  `Board.auto_move` supplies enough fuel for the loop to reach
its fixed point, mirroring the Rust unbounded loop (which terminates because
each productive pass removes at least one card from columns/free cells). -/
def Board.auto_move_loop : Nat → Board → Nat → Board × Nat
  | 0, b, moved => (b, moved)
  | fuel + 1, b, moved =>
      let p := b.auto_pass
      if p.2 = 0 then (p.1, moved)
      else Board.auto_move_loop fuel p.1 (moved + p.2)

/-- src/board.rs: `Board::auto_move` — returns the board after auto-advancing
and the number of cards moved. -/
def Board.auto_move (b : Board) : Board × Nat :=
  Board.auto_move_loop (b.cardCount + 1) b 0

/-- src/board.rs: `Board::stack_len` helper — length of the maximal chain
upward from a given card through the rest of the column (the `while` loop of
`stack_len`, expressed recursively: each following card must `can_stack_on`
the one below it). -/
def chain_len : Card → List Card → Nat
  | _, [] => 0
  | c, d :: rest => if d.can_stack_on c then 1 + chain_len d rest else 0

/-- src/board.rs: `Board::stack_len` — 0 if `from_idx` is out of bounds, else
1 plus the chain length from that card. -/
def Board.stack_len (b : Board) (col from_idx : Nat) : Nat :=
  match (b.columns.getD col []).drop from_idx with
  | [] => 0
  | c :: rest => 1 + chain_len c rest

/-- src/board.rs: `Board::move_stack` — move the whole slice of `src_col`
from `start_idx` upward onto `dst_col`.  The `get?` mirrors the Rust index
expression `self.columns[src_col][start_idx]`, which is in bounds on every
reachable path (start_idx < col_len was just checked). -/
def Board.move_stack (b : Board) (src_col start_idx dst_col : Nat) :
    Board × Except String Unit :=
  if src_col = dst_col then
    (b, Except.error "Source and destination columns are the same")
  else
    let col_len := (b.columns.getD src_col []).length
    if start_idx ≥ col_len then (b, Except.error "start_idx out of bounds")
    else
      let movable := b.stack_len src_col start_idx
      let stack_size := col_len - start_idx
      if movable < stack_size then
        (b, Except.error "That slice is not a valid sequence")
      else
        match (b.columns.getD src_col []).get? start_idx with
        | none => (b, Except.error "panic: index out of bounds")
        | some bottom_card =>
          if !(match b.column_top dst_col with
               | none => true
               | some top => bottom_card.can_stack_on top) then
            (b, Except.error "Stack cannot be placed on destination column")
          else
            let stack := (b.columns.getD src_col []).drop start_idx
            let b1 :=
              { b with columns :=
                  b.columns.set src_col ((b.columns.getD src_col []).take start_idx) }
            ({ b1 with columns :=
                b1.columns.set dst_col ((b1.columns.getD dst_col []) ++ stack) },
              Except.ok ())

/-- src/board.rs: `Board::is_won` -/
def Board.is_won (b : Board) : Bool :=
  b.foundations.all (fun f => f == 9)
    && b.flower_placed
    && b.columns.all (fun col => col.isEmpty)
    && b.free_cells.all (fun fc => !fc.card.isSome)

/-- The cards a free-cell slot accounts for: nothing when empty, the held card,
or all four dragons of the merged suit when locked. -/
def cellCards : FreeCellState → Multiset Card
  | FreeCellState.Empty => 0
  | FreeCellState.Card c => {c}
  | FreeCellState.DragonLocked s => Multiset.replicate 4 (Card.Dragon s)

/-- The cards a foundation counter `k` for suit `s` accounts for:
`Numbered s 1, ..., Numbered s k`. -/
def foundationCards (s : Suit) (k : Nat) : Multiset Card :=
  (((List.range k).map (fun i => Card.Numbered s (i + 1)) : List Card) : Multiset Card)

/-- A column's cards as a multiset. -/
def cardsOf (l : List Card) : Multiset Card := (l : Multiset Card)

/-- The full multiset of cards a board accounts for: every card in every
column, every card in a free cell, four dragons per locked cell, the numbered
cards logically placed on each foundation, and the flower if placed. -/
def Board.cardMultiset (b : Board) : Multiset Card :=
  (b.columns.map cardsOf).sum
    + (b.free_cells.map cellCards).sum
    + foundationCards Suit.Red (b.foundations.getD 0 0)
    + foundationCards Suit.Green (b.foundations.getD 1 0)
    + foundationCards Suit.Black (b.foundations.getD 2 0)
    + (if b.flower_placed then ({Card.Flower} : Multiset Card) else 0)

/-- Number of `Dragon s` cards physically on the board: inside columns plus
held (unlocked) in free cells. -/
def Board.dragonTotal (b : Board) (s : Suit) : Nat :=
  (b.columns.map (fun col => col.count (Card.Dragon s))).sum
    + b.free_cells.countP (fun fc => fc == FreeCellState.Card (Card.Dragon s))

/-- Every `Dragon s` on the board is exposed: no column holds one below its
top card (free-cell dragons are always exposed). -/
def Board.allDragonsExposed (b : Board) (s : Suit) : Prop :=
  ∀ col ∈ b.columns, Card.Dragon s ∉ col.dropLast

/-- A list of cards forming a single valid run bottom-to-top: each card
satisfies `can_stack_on` against the card directly below it. -/
def isRun (l : List Card) : Prop :=
  List.Chain' (fun below above => above.can_stack_on below = true) l

instance (l : List Card) : Decidable (isRun l) := by
  unfold isRun; infer_instance

/-- An index argument within the documented range (columns 0..8, free cells
0..3); Rust panics outside these ranges rather than returning an error. -/
def Location.inRange : Location → Prop
  | Location.Column c => c < NUM_COLUMNS
  | Location.FreeCell f => f < NUM_FREE_CELLS

instance (loc : Location) : Decidable loc.inRange := by
  cases loc <;> (unfold Location.inRange; infer_instance)

/-- One successful engine operation with in-range arguments, relating the
board before the call to the board after it.  `auto_move` always counts as a
step (it may move zero cards). -/
inductive Step : Board → Board → Prop where
  | move_card (b : Board) (src dst : Location) (hs : src.inRange) (hd : dst.inRange)
      (hok : (b.move_card src dst).2 = Except.ok ()) :
      Step b (b.move_card src dst).1
  | move_to_foundation (b : Board) (src : Location) (hs : src.inRange)
      (hok : (b.move_to_foundation src).2 = Except.ok ()) :
      Step b (b.move_to_foundation src).1
  | move_stack (b : Board) (s i d : Nat) (hs : s < NUM_COLUMNS) (hd : d < NUM_COLUMNS)
      (hok : (b.move_stack s i d).2 = Except.ok ()) :
      Step b (b.move_stack s i d).1
  | merge_dragons (b : Board) (suit : Suit)
      (hok : (b.merge_dragons suit).2 = Except.ok ()) :
      Step b (b.merge_dragons suit).1
  | auto_move (b : Board) :
      Step b b.auto_move.1

/-- Reachability by any sequence of successful operations. -/
def Reachable : Board → Board → Prop := Relation.ReflTransGen Step

/-- A small fixed board exercising the operations on concrete data: a
two-card run `G4,R3` on column 0, `B5` on column 1, `R1` on column 3. -/
def sampleBoard : Board :=
  { columns := [[Card.Numbered Suit.Green 4, Card.Numbered Suit.Red 3],
      [Card.Numbered Suit.Black 5], [], [Card.Numbered Suit.Red 1],
      [], [], [], []]
    free_cells := [FreeCellState.Empty, FreeCellState.Empty, FreeCellState.Empty]
    foundations := [0, 0, 0]
    flower_placed := false }

/-- A board with all four black dragons exposed on column tops. -/
def dragonBoard : Board :=
  { columns := [[Card.Dragon Suit.Black], [Card.Dragon Suit.Black],
      [Card.Dragon Suit.Black], [Card.Dragon Suit.Black], [], [], [], []]
    free_cells := [FreeCellState.Empty, FreeCellState.Empty, FreeCellState.Empty]
    foundations := [0, 0, 0]
    flower_placed := false }

/-- The board reached from the unshuffled deal by merging the black dragons
(all four sit on column tops after the deal). -/
def mergedBoard : Board :=
  ((Board.deal_from_deck full_deck).merge_dragons Suit.Black).1

/-! ### Helper lemmas -/

theorem getD_set_self {α : Type} (l : List α) (i : Nat) (v d : α) (h : i < l.length) :
    (l.set i v).getD i d = v := by
  induction l generalizing i with
  | nil => simp at h
  | cons a t ih =>
      cases i with
      | zero => rfl
      | succ n => simpa using ih n (by simpa using h)

theorem getD_set_ne {α : Type} (l : List α) (i j : Nat) (v d : α) (h : i ≠ j) :
    (l.set i v).getD j d = l.getD j d := by
  induction l generalizing i j with
  | nil => simp
  | cons a t ih =>
      cases i with
      | zero => cases j with
        | zero => exact absurd rfl h
        | succ m => simp
      | succ n => cases j with
        | zero => simp
        | succ m => simpa using ih n m (by omega)

theorem is_empty_iff (fc : FreeCellState) :
    fc.is_empty = true ↔ fc = FreeCellState.Empty := by
  cases fc <;> simp [FreeCellState.is_empty]

theorem card_eq_some_iff (fc : FreeCellState) (c : Card) :
    fc.card = some c ↔ fc = FreeCellState.Card c := by
  cases fc <;> simp [FreeCellState.card]

/-- `take_card` returns exactly the card `card_at` sees. -/
theorem take_card_fst (b : Board) (loc : Location) :
    (b.take_card loc).1 = b.card_at loc := by
  cases loc <;>
    simp [Board.take_card, Board.card_at, Board.column_top, Board.free_cell_card]

/-- `can_move` requires the source to hold a card. -/
theorem can_move_card_at (b : Board) (src dst : Location)
    (h : b.can_move src dst = true) : ∃ c, b.card_at src = some c := by
  unfold Board.can_move at h
  cases hc : b.card_at src with
  | none => rw [hc] at h; simp at h
  | some c => exact ⟨c, rfl⟩

/-- `can_move_to_foundation` requires the source to hold the flower or a
numbered card. -/
theorem can_mtf_card_at (b : Board) (src : Location)
    (h : b.can_move_to_foundation src = true) :
    b.card_at src = some Card.Flower ∨ ∃ s v, b.card_at src = some (Card.Numbered s v) := by
  unfold Board.can_move_to_foundation at h
  cases hc : b.card_at src with
  | none => rw [hc] at h; simp at h
  | some c =>
      cases c with
      | Flower => exact Or.inl rfl
      | Numbered s v => exact Or.inr ⟨s, v, rfl⟩
      | Dragon s => rw [hc] at h; simp at h

/-! ### Claim theorems -/

/-- C7: `can_stack_on(c1, c2)` is true iff c1 and c2 are both Numbered cards
with different suits and c1's value plus one equals c2's value; false whenever
either card is a Dragon or the Flower. -/
theorem can_stack_on_characterization (c1 c2 : Card) :
    c1.can_stack_on c2 = true ↔
      ∃ s1 v1 s2 v2, c1 = Card.Numbered s1 v1 ∧ c2 = Card.Numbered s2 v2
        ∧ s1 ≠ s2 ∧ v1 + 1 = v2 := by
  cases c1 <;> cases c2 <;> simp [Card.can_stack_on]
  constructor
  · rintro ⟨h1, h2⟩
    exact ⟨_, _, ⟨rfl, rfl⟩, _, ⟨rfl, h2.symm⟩, h1⟩
  · rintro ⟨s1, v1, ⟨rfl, rfl⟩, x, ⟨rfl, h2⟩, hne⟩
    exact ⟨hne, h2.symm⟩

/-- An in-range column index is never the `usize::MAX` sentinel. -/
theorem ne_usize_max {c : Nat} (h : c < NUM_COLUMNS) : c ≠ USIZE_MAX := by
  unfold NUM_COLUMNS at h
  unfold USIZE_MAX
  omega

/-- `move_card` succeeds exactly when `can_move` holds (the `unwrap` never
fires). -/
theorem move_card_ok_iff_can (b : Board) (src dst : Location) :
    (b.move_card src dst).2 = Except.ok () ↔ b.can_move src dst = true := by
  constructor
  · intro h
    by_contra hcm
    rw [Bool.not_eq_true] at hcm
    unfold Board.move_card at h
    rw [hcm] at h
    simp at h
  · intro hcm
    obtain ⟨c, hc⟩ := can_move_card_at b src dst hcm
    have h1 : (b.take_card src).1 = some c := by rw [take_card_fst, hc]
    unfold Board.move_card
    rw [hcm]
    rcases hp : b.take_card src with ⟨c?, b1⟩
    rw [hp] at h1
    simp only at h1
    subst h1
    simp

/-- C5: `can_move(src, dst)` holds iff the source holds a card (non-empty
column, or a free cell in the `Card` state) and: a free-cell destination must
be `Empty`; a column destination must differ from a column source and be
either empty or topped by a card the moved card can stack on.  Success of
`move_card` is equivalent to `can_move`. -/
theorem can_move_characterization (b : Board) (src dst : Location)
    (hs : src.inRange) (hd : dst.inRange) :
    (b.can_move src dst = true ↔
      ∃ card, b.card_at src = some card ∧
        ((∀ f, dst = Location.FreeCell f →
            b.free_cells.getD f FreeCellState.Empty = FreeCellState.Empty)
         ∧ (∀ d, dst = Location.Column d →
            (∀ sc, src = Location.Column sc → sc ≠ d) ∧
              (b.column_top d = none ∨
                ∃ top, b.column_top d = some top ∧ card.can_stack_on top = true))))
    ∧ ((b.move_card src dst).2 = Except.ok () ↔ b.can_move src dst = true) := by
  constructor
  · cases dst with
    | FreeCell f =>
        cases hc : b.card_at src with
        | none => simp [Board.can_move, hc]
        | some card => simp [Board.can_move, hc, is_empty_iff]
    | Column d =>
        cases hc : b.card_at src with
        | none => simp [Board.can_move, hc]
        | some card =>
            cases src with
            | Column sc =>
                by_cases heq : d = sc
                · subst heq
                  simp [Board.can_move, hc]
                · cases ht : b.column_top d with
                  | none => simp [Board.can_move, hc, ht, heq]; omega
                  | some top => simp [Board.can_move, hc, ht, heq]; intro _; omega
            | FreeCell sf =>
                cases ht : b.column_top d with
                | none => simp [Board.can_move, hc, ht, ne_usize_max hd]
                | some top => simp [Board.can_move, hc, ht, ne_usize_max hd]
  · exact move_card_ok_iff_can b src dst

/-- `can_move_to_foundation` spelled out: the flower with the flower slot
still free, or the next sequential numbered card for its suit. -/
theorem can_mtf_iff (b : Board) (src : Location) :
    b.can_move_to_foundation src = true ↔
      (b.card_at src = some Card.Flower ∧ b.flower_placed = false) ∨
      (∃ s v, b.card_at src = some (Card.Numbered s v) ∧
         b.foundations.getD (suit_index s) 0 + 1 = v) := by
  unfold Board.can_move_to_foundation
  cases hc : b.card_at src with
  | none => simp
  | some c =>
      cases c with
      | Flower => simp
      | Numbered s v => simp; exact eq_comm
      | Dragon s => simp

/-- `move_to_foundation` succeeds exactly when `can_move_to_foundation`
holds. -/
theorem mtf_ok_iff_can (b : Board) (src : Location) :
    (b.move_to_foundation src).2 = Except.ok () ↔
      b.can_move_to_foundation src = true := by
  constructor
  · intro h
    by_contra hcm
    rw [Bool.not_eq_true] at hcm
    unfold Board.move_to_foundation at h
    rw [hcm] at h
    simp at h
  · intro hcm
    rcases hp : b.take_card src with ⟨c?, b1⟩
    have h1 : c? = b.card_at src := by rw [← take_card_fst b src, hp]
    rcases can_mtf_card_at b src hcm with hf | ⟨s, v, hn⟩
    · rw [hf] at h1
      subst h1
      simp [Board.move_to_foundation, hcm, hp]
    · rw [hn] at h1
      subst h1
      simp [Board.move_to_foundation, hcm, hp]

theorem take_card_foundations (b : Board) (loc : Location) :
    ((b.take_card loc).2).foundations = b.foundations := by
  cases loc with
  | Column c => rfl
  | FreeCell f =>
      simp only [Board.take_card]
      split <;> rfl

theorem take_card_flower (b : Board) (loc : Location) :
    ((b.take_card loc).2).flower_placed = b.flower_placed := by
  cases loc with
  | Column c => rfl
  | FreeCell f =>
      simp only [Board.take_card]
      split <;> rfl

theorem take_card_column_snd (b : Board) (c : Nat) :
    (b.take_card (Location.Column c)).2
      = { b with columns := b.columns.set c ((b.columns.getD c []).dropLast) } := rfl

theorem take_card_freecell_snd (b : Board) (f : Nat) (card : Card)
    (h : b.free_cell_card f = some card) :
    (b.take_card (Location.FreeCell f)).2
      = { b with free_cells := b.free_cells.set f FreeCellState.Empty } := by
  unfold Board.free_cell_card at h
  simp only [Board.take_card, h, Option.isSome_some, eq_self_iff_true, if_true]

/-- The result of a successful `move_to_foundation`, componentwise: the
columns and free cells are those left by `take_card`, and exactly the matching
counter/flag advances (the counter by exactly one). -/
theorem mtf_result (b : Board) (src : Location)
    (hcm : b.can_move_to_foundation src = true) :
    ((b.move_to_foundation src).1.columns = ((b.take_card src).2).columns)
    ∧ ((b.move_to_foundation src).1.free_cells = ((b.take_card src).2).free_cells)
    ∧ (b.card_at src = some Card.Flower →
        (b.move_to_foundation src).1.flower_placed = true
        ∧ (b.move_to_foundation src).1.foundations = b.foundations)
    ∧ (∀ s v, b.card_at src = some (Card.Numbered s v) →
        (b.move_to_foundation src).1.foundations
          = b.foundations.set (suit_index s) (b.foundations.getD (suit_index s) 0 + 1)
        ∧ (b.move_to_foundation src).1.flower_placed = b.flower_placed) := by
  rcases hp : b.take_card src with ⟨c?, b1⟩
  have h1 : c? = b.card_at src := by rw [← take_card_fst b src, hp]
  have hfd : b1.foundations = b.foundations := by
    have := take_card_foundations b src
    rw [hp] at this
    exact this
  have hfl : b1.flower_placed = b.flower_placed := by
    have := take_card_flower b src
    rw [hp] at this
    exact this
  rcases can_mtf_card_at b src hcm with hf | ⟨s, v, hn⟩
  · rw [hf] at h1
    subst h1
    refine ⟨?_, ?_, ?_, ?_⟩ <;>
      simp [Board.move_to_foundation, hcm, hp, hfd, hfl, hf]
  · rw [hn] at h1
    subst h1
    refine ⟨?_, ?_, ?_, ?_⟩ <;>
      simp [Board.move_to_foundation, hcm, hp, hfd, hfl, hn]

/-- C6: `move_to_foundation(src)` succeeds iff the source card is the Flower
with the flower not yet placed, or `Numbered(s, v)` with the suit's foundation
counter one below `v`; a Dragon or empty source never succeeds.  On success
the card is removed from its source, the matching counter is incremented by
exactly one (or the flower flag set), and no other field changes. -/
theorem move_to_foundation_correct (b : Board) (src : Location) :
    ((b.move_to_foundation src).2 = Except.ok () ↔
       (b.card_at src = some Card.Flower ∧ b.flower_placed = false) ∨
       (∃ s v, b.card_at src = some (Card.Numbered s v) ∧
          b.foundations.getD (suit_index s) 0 + 1 = v))
    ∧ ((b.move_to_foundation src).2 = Except.ok () →
        ((∀ c, src = Location.Column c →
            (b.move_to_foundation src).1.columns
              = b.columns.set c ((b.columns.getD c []).dropLast)
            ∧ (b.move_to_foundation src).1.free_cells = b.free_cells)
         ∧ (∀ f, src = Location.FreeCell f →
            (b.move_to_foundation src).1.free_cells
              = b.free_cells.set f FreeCellState.Empty
            ∧ (b.move_to_foundation src).1.columns = b.columns)
         ∧ (b.card_at src = some Card.Flower →
              (b.move_to_foundation src).1.flower_placed = true
              ∧ (b.move_to_foundation src).1.foundations = b.foundations)
         ∧ (∀ s v, b.card_at src = some (Card.Numbered s v) →
              (b.move_to_foundation src).1.foundations
                = b.foundations.set (suit_index s)
                    (b.foundations.getD (suit_index s) 0 + 1)
              ∧ (b.move_to_foundation src).1.flower_placed = b.flower_placed))) := by
  constructor
  · exact (mtf_ok_iff_can b src).trans (can_mtf_iff b src)
  · intro hok
    have hcm : b.can_move_to_foundation src = true := (mtf_ok_iff_can b src).1 hok
    obtain ⟨hcols, hcells, hflower, hnum⟩ := mtf_result b src hcm
    refine ⟨?_, ?_, hflower, hnum⟩
    · rintro c rfl
      rw [hcols, hcells, take_card_column_snd]
      exact ⟨rfl, rfl⟩
    · rintro f rfl
      obtain ⟨card, hcard⟩ : ∃ card, b.card_at (Location.FreeCell f) = some card := by
        rcases can_mtf_card_at b _ hcm with hf | ⟨s, v, hn⟩
        · exact ⟨_, hf⟩
        · exact ⟨_, hn⟩
      rw [hcols, hcells, take_card_freecell_snd b f card hcard]
      exact ⟨rfl, rfl⟩

/-- `lockFirstEmpty` finds a slot whenever some slot is empty. -/
theorem lockFirstEmpty_isSome (l : List FreeCellState) (s : Suit)
    (h : ∃ fc ∈ l, fc.is_empty = true) : (lockFirstEmpty l s).isSome = true := by
  induction l with
  | nil => rcases h with ⟨fc, hfc, _⟩; cases hfc
  | cons a t ih =>
      unfold lockFirstEmpty
      by_cases ha : a.is_empty = true
      · rw [if_pos ha]; rfl
      · rw [if_neg ha]
        rcases h with ⟨fc, hmem, hemp⟩
        rcases List.mem_cons.1 hmem with rfl | hmem2
        · exact absurd hemp ha
        · have hsome := ih ⟨fc, hmem2, hemp⟩
          cases hl : lockFirstEmpty t s with
          | none => rw [hl] at hsome; cases hsome
          | some r => rfl

/-- When a merge is allowed, clearing the suit's dragons from the free cells
leaves at least one empty slot (so `expect` never panics). -/
theorem merge_has_empty (b : Board) (suit : Suit)
    (h : b.can_merge_dragons suit = true) :
    ∃ fc ∈ b.free_cells.map (clearDragonCell (Card.Dragon suit)),
      fc.is_empty = true := by
  by_cases hs : b.free_cells.any
      (fun fc => fc.is_empty || fc == FreeCellState.Card (Card.Dragon suit)) = true
  · rcases List.any_eq_true.1 hs with ⟨fc, hmem, hfc⟩
    refine ⟨clearDragonCell (Card.Dragon suit) fc, List.mem_map_of_mem _ hmem, ?_⟩
    unfold clearDragonCell
    rcases Bool.or_eq_true_iff.1 hfc with hemp | hdr
    · rw [is_empty_iff] at hemp
      subst hemp
      simp [FreeCellState.is_empty]
    · rw [if_pos hdr]
      rfl
  · exfalso
    unfold Board.can_merge_dragons at h
    rw [Bool.not_eq_true] at hs
    simp only [hs] at h
    simp at h

/-- `merge_dragons` succeeds exactly when `can_merge_dragons` holds (the
`expect` never fires). -/
theorem merge_ok_iff_can (b : Board) (suit : Suit) :
    (b.merge_dragons suit).2 = Except.ok () ↔ b.can_merge_dragons suit = true := by
  constructor
  · intro h
    by_contra hcm
    rw [Bool.not_eq_true] at hcm
    unfold Board.merge_dragons at h
    rw [hcm] at h
    simp at h
  · intro hcm
    have hsome := lockFirstEmpty_isSome
      (b.free_cells.map (clearDragonCell (Card.Dragon suit)))
      suit (merge_has_empty b suit hcm)
    unfold Board.merge_dragons
    rw [hcm]
    simp only [Bool.not_true, Bool.false_eq_true, if_false]
    split
    · rfl
    · rename_i hnone
      exfalso
      have h2 : lockFirstEmpty
          (b.free_cells.map (clearDragonCell (Card.Dragon suit))) suit = none := hnone
      rw [h2] at hsome
      cases hsome

/-- Every branch of `move_stack` either succeeds or returns the board
untouched. -/
theorem move_stack_cases (b : Board) (s i d : Nat) :
    (b.move_stack s i d).2 = Except.ok () ∨ (b.move_stack s i d).1 = b := by
  unfold Board.move_stack
  dsimp only
  repeat' split
  all_goals first
    | exact Or.inl rfl
    | exact Or.inr rfl

/-- C2: whenever `move_card`, `move_to_foundation`, `move_stack`, or
`merge_dragons` returns an error, the board is exactly the board before the
call — no partial mutation on any failure path. -/
theorem illegal_move_no_op (b : Board) :
    (∀ src dst e, (b.move_card src dst).2 = Except.error e →
        (b.move_card src dst).1 = b)
    ∧ (∀ src e, (b.move_to_foundation src).2 = Except.error e →
        (b.move_to_foundation src).1 = b)
    ∧ (∀ s i d e, (b.move_stack s i d).2 = Except.error e →
        (b.move_stack s i d).1 = b)
    ∧ (∀ suit e, (b.merge_dragons suit).2 = Except.error e →
        (b.merge_dragons suit).1 = b) := by
  refine ⟨?_, ?_, ?_, ?_⟩
  · intro src dst e h
    by_cases hcm : b.can_move src dst = true
    · have hok := (move_card_ok_iff_can b src dst).2 hcm
      rw [h] at hok
      cases hok
    · rw [Bool.not_eq_true] at hcm
      unfold Board.move_card
      rw [hcm]
      rfl
  · intro src e h
    by_cases hcm : b.can_move_to_foundation src = true
    · have hok := (mtf_ok_iff_can b src).2 hcm
      rw [h] at hok
      cases hok
    · rw [Bool.not_eq_true] at hcm
      unfold Board.move_to_foundation
      rw [hcm]
      rfl
  · intro s i d e h
    rcases move_stack_cases b s i d with hok | heq
    · rw [h] at hok
      cases hok
    · exact heq
  · intro suit e h
    by_cases hcm : b.can_merge_dragons suit = true
    · have hok := (merge_ok_iff_can b suit).2 hcm
      rw [h] at hok
      cases hok
    · rw [Bool.not_eq_true] at hcm
      unfold Board.merge_dragons
      rw [hcm]
      rfl

/-- Splitting a card count at a column's last element. -/
theorem count_last_split (d : Card) (col : List Card) :
    col.count d = (col.dropLast).count d
      + (if col.getLast? = some d then 1 else 0) := by
  induction col with
  | nil => simp
  | cons a t ih =>
      cases t with
      | nil =>
          simp only [List.count_cons, List.dropLast_single, List.getLast?_singleton,
            List.count_nil, List.dropLast, Option.some.injEq]
          by_cases h : a = d
          · subst h; simp
          · simp [h, Ne.symm h]
      | cons e t2 =>
          simp only [List.dropLast_cons₂, List.count_cons, List.getLast?_cons_cons]
          rw [List.count_cons] at ih
          rw [ih]
          ring

/-- The number of dragon-topped columns never exceeds the number of dragons in
the columns. -/
theorem tops_le_sum (d : Card) (cols : List (List Card)) :
    cols.countP (fun col => col.getLast? == some d) ≤
      (cols.map (fun col => col.count d)).sum := by
  induction cols with
  | nil => simp
  | cons c t ih =>
      simp only [List.countP_cons, List.map_cons, List.sum_cons]
      have hc : (if (c.getLast? == some d) = true then 1 else 0) ≤ c.count d := by
        by_cases h : c.getLast? = some d
        · rw [count_last_split d c]
          simp [h]
        · simp [h]
      omega

/-- Dragon-topped columns account for all column dragons exactly when no
column hides a dragon below its top. -/
theorem tops_eq_sum_iff (d : Card) (cols : List (List Card)) :
    (cols.countP (fun col => col.getLast? == some d)
      = (cols.map (fun col => col.count d)).sum)
    ↔ ∀ col ∈ cols, d ∉ col.dropLast := by
  induction cols with
  | nil => simp
  | cons c t ih =>
      simp only [List.countP_cons, List.map_cons, List.sum_cons, List.mem_cons]
      have hsingle : ((if (c.getLast? == some d) = true then 1 else 0) = c.count d)
          ↔ d ∉ c.dropLast := by
        rw [count_last_split d c, ← List.count_eq_zero (a := d) (l := c.dropLast)]
        by_cases h : c.getLast? = some d
        · simp only [h, beq_self_eq_true, if_true]
          omega
        · have hb : (c.getLast? == some d) = false := by
            rw [beq_eq_false_iff_ne]
            exact h
          simp only [hb, Bool.false_eq_true, if_false, if_neg h]
          omega
      have h1 : (if (c.getLast? == some d) = true then 1 else 0) ≤ c.count d := by
        by_cases hh : c.getLast? = some d
        · rw [count_last_split d c]
          simp [hh]
        · simp [hh]
      have h2 := tops_le_sum d t
      constructor
      · intro h
        have hc : (if (c.getLast? == some d) = true then 1 else 0) = c.count d := by
          omega
        have ht : t.countP (fun col => col.getLast? == some d)
            = (t.map (fun col => col.count d)).sum := by omega
        rintro col (rfl | hmem)
        · exact hsingle.1 hc
        · exact (ih.1 ht) col hmem
      · intro hall
        have hc := hsingle.2 (hall c (Or.inl rfl))
        have ht := ih.2 (fun col hm => hall col (Or.inr hm))
        omega

/-- The chain length never exceeds the number of remaining cards. -/
theorem chain_len_le (c : Card) (l : List Card) : chain_len c l ≤ l.length := by
  induction l generalizing c with
  | nil => simp [chain_len]
  | cons d t ih =>
      unfold chain_len
      by_cases h : d.can_stack_on c = true
      · rw [if_pos h]
        have := ih d
        simp only [List.length_cons]
        omega
      · rw [if_neg h]
        simp

/-- The chain covers the whole remaining list exactly when the list is one
valid run above `c`. -/
theorem chain_len_eq_iff (c : Card) (l : List Card) :
    chain_len c l = l.length ↔
      List.Chain (fun below above => above.can_stack_on below = true) c l := by
  induction l generalizing c with
  | nil => simp [chain_len, List.Chain.nil]
  | cons d t ih =>
      unfold chain_len
      by_cases h : d.can_stack_on c = true
      · rw [if_pos h]
        rw [List.chain_cons]
        constructor
        · intro he
          have h2 : chain_len d t = t.length := by
            simp only [List.length_cons] at he
            omega
          exact ⟨h, (ih d).1 h2⟩
        · rintro ⟨-, hc⟩
          have := (ih d).2 hc
          simp only [List.length_cons]
          omega
      · rw [if_neg h]
        rw [List.chain_cons]
        constructor
        · intro he
          exact absurd he.symm (by simp)
        · rintro ⟨hr, -⟩
          exact absurd hr h

/-- The `movable < stack_size` test in `move_stack` fails exactly when the
whole slice from `i` to the top of column `s` is one valid run. -/
theorem stack_len_not_lt_iff (b : Board) (s i : Nat)
    (h : i < (b.columns.getD s []).length) :
    (¬ b.stack_len s i < (b.columns.getD s []).length - i) ↔
      isRun ((b.columns.getD s []).drop i) := by
  unfold Board.stack_len
  cases hdrop : (b.columns.getD s []).drop i with
  | nil =>
      exfalso
      have h2 : ((b.columns.getD s []).drop i).length
          = (b.columns.getD s []).length - i := by simp
      rw [hdrop] at h2
      simp only [List.length_nil] at h2
      omega
  | cons c rest =>
      dsimp only
      have h2 : ((b.columns.getD s []).drop i).length
          = (b.columns.getD s []).length - i := by simp
      rw [hdrop] at h2
      simp only [List.length_cons] at h2
      have hlen : (b.columns.getD s []).length - i = rest.length + 1 := by omega
      rw [hlen]
      have hle := chain_len_le c rest
      have hch : isRun (c :: rest) ↔
          List.Chain (fun below above => above.can_stack_on below = true) c rest :=
        Iff.rfl
      rw [hch, ← chain_len_eq_iff]
      omega

/-- Full characterization of `move_stack`: success condition and resulting
board. -/
theorem move_stack_spec (b : Board) (s i d : Nat)
    (hs : s < NUM_COLUMNS) (hd : d < NUM_COLUMNS) :
    ((b.move_stack s i d).2 = Except.ok () ↔
      (s ≠ d ∧ i < (b.columns.getD s []).length
        ∧ isRun ((b.columns.getD s []).drop i)
        ∧ ∃ bc, (b.columns.getD s []).get? i = some bc
            ∧ (b.column_top d = none ∨
                ∃ top, b.column_top d = some top ∧ bc.can_stack_on top = true)))
    ∧ ((b.move_stack s i d).2 = Except.ok () →
        (b.move_stack s i d).1.columns
          = (b.columns.set s ((b.columns.getD s []).take i)).set d
              ((b.columns.getD d []) ++ (b.columns.getD s []).drop i)
        ∧ (b.move_stack s i d).1.free_cells = b.free_cells
        ∧ (b.move_stack s i d).1.foundations = b.foundations
        ∧ (b.move_stack s i d).1.flower_placed = b.flower_placed) := by
  unfold Board.move_stack
  dsimp only
  split
  · rename_i heq
    subst heq
    constructor
    · constructor
      · intro hok; cases hok
      · rintro ⟨hne, -⟩; exact absurd rfl hne
    · intro hok; cases hok
  · rename_i hne
    split
    · rename_i hge
      constructor
      · constructor
        · intro hok; cases hok
        · rintro ⟨-, hlt, -⟩; omega
      · intro hok; cases hok
    · rename_i hge
      have hlt : i < (b.columns.getD s []).length := by omega
      split
      · rename_i hmov
        constructor
        · constructor
          · intro hok; cases hok
          · rintro ⟨-, -, hrun, -⟩
            exact absurd hrun (by rw [← stack_len_not_lt_iff b s i hlt]; omega)
        · intro hok; cases hok
      · rename_i hmov
        have hrun : isRun ((b.columns.getD s []).drop i) :=
          (stack_len_not_lt_iff b s i hlt).1 hmov
        split
        · rename_i hnone
          exfalso
          rw [List.get?_eq_none] at hnone
          omega
        · rename_i bc hbc
          split
          · rename_i hplace
            rw [Bool.not_eq_true'] at hplace
            constructor
            · constructor
              · intro hok; cases hok
              · rintro ⟨-, -, -, bc2, hbc2, hdisj⟩
                rw [hbc] at hbc2
                cases hbc2
                rcases hdisj with hn | ⟨top, htop, hst⟩
                · rw [hn] at hplace
                  cases hplace
                · rw [htop] at hplace
                  dsimp only at hplace
                  rw [hst] at hplace
                  cases hplace
            · intro hok; cases hok
          · rename_i hplace
            simp only [Bool.not_eq_true, Bool.not_eq_false'] at hplace
            constructor
            · constructor
              · intro _
                refine ⟨hne, hlt, hrun, bc, hbc, ?_⟩
                cases htop : b.column_top d with
                | none => exact Or.inl rfl
                | some top =>
                    rw [htop] at hplace
                    dsimp only at hplace
                    exact Or.inr ⟨top, rfl, hplace⟩
              · intro _; rfl
            · intro _
              refine ⟨?_, rfl, rfl, rfl⟩
              rw [getD_set_ne b.columns s d _ [] hne]

/-- C3: `move_stack(src, start, dst)` succeeds iff the columns differ, the
start index is in bounds, the whole slice from the start index to the top of
the source column is one valid run, and the card at the start index may be
placed on the destination (empty column accepts anything, otherwise
`can_stack_on` against the destination top).  On success the whole slice is
removed from the source and appended in order to the destination, with free
cells, foundations and the flower flag untouched — in particular no condition
involves the free cells, so run length is not bounded by free-cell
availability. -/
theorem move_stack_characterization (b : Board) (s i d : Nat)
    (hs : s < NUM_COLUMNS) (hd : d < NUM_COLUMNS) :
    ((b.move_stack s i d).2 = Except.ok () ↔
      (s ≠ d ∧ i < (b.columns.getD s []).length
        ∧ isRun ((b.columns.getD s []).drop i)
        ∧ ∃ bc, (b.columns.getD s []).get? i = some bc
            ∧ (b.column_top d = none ∨
                ∃ top, b.column_top d = some top ∧ bc.can_stack_on top = true)))
    ∧ ((b.move_stack s i d).2 = Except.ok () →
        (b.move_stack s i d).1.columns
          = (b.columns.set s ((b.columns.getD s []).take i)).set d
              ((b.columns.getD d []) ++ (b.columns.getD s []).drop i)
        ∧ (b.move_stack s i d).1.free_cells = b.free_cells
        ∧ (b.move_stack s i d).1.foundations = b.foundations
        ∧ (b.move_stack s i d).1.flower_placed = b.flower_placed) :=
  move_stack_spec b s i d hs hd

/-- With every board dragon accounted for (`dragonTotal`), the exposed count
reaches 4 exactly when no dragon of the suit is buried. -/
theorem count_exposed_eq_iff (b : Board) (suit : Suit)
    (htotal : b.dragonTotal suit = 4) :
    b.count_exposed_dragons suit = 4 ↔ b.allDragonsExposed suit := by
  unfold Board.dragonTotal at htotal
  unfold Board.count_exposed_dragons Board.allDragonsExposed
  have hle := tops_le_sum (Card.Dragon suit) b.columns
  have hiff := tops_eq_sum_iff (Card.Dragon suit) b.columns
  constructor
  · intro h4
    apply hiff.1
    omega
  · intro hexp
    have := hiff.2 hexp
    omega

/-- The `has_slot` test of `can_merge_dragons`, as a membership statement. -/
theorem has_slot_iff (b : Board) (suit : Suit) :
    b.free_cells.any
      (fun fc => fc.is_empty || fc == FreeCellState.Card (Card.Dragon suit)) = true
    ↔ ∃ fc ∈ b.free_cells,
        fc = FreeCellState.Empty ∨ fc = FreeCellState.Card (Card.Dragon suit) := by
  rw [List.any_eq_true]
  constructor
  · rintro ⟨fc, hmem, hfc⟩
    rcases Bool.or_eq_true_iff.1 hfc with he | hd
    · exact ⟨fc, hmem, Or.inl ((is_empty_iff fc).1 he)⟩
    · exact ⟨fc, hmem, Or.inr (eq_of_beq hd)⟩
  · rintro ⟨fc, hmem, rfl | rfl⟩
    · exact ⟨_, hmem, by simp [FreeCellState.is_empty]⟩
    · exact ⟨_, hmem, by simp⟩

/-- `can_merge_dragons` holds iff exactly four dragons of the suit are exposed
and some free cell is empty or holds one of those dragons. -/
theorem can_merge_iff (b : Board) (suit : Suit) :
    b.can_merge_dragons suit = true ↔
      (b.count_exposed_dragons suit = 4
        ∧ ∃ fc ∈ b.free_cells,
            fc = FreeCellState.Empty ∨ fc = FreeCellState.Card (Card.Dragon suit)) := by
  unfold Board.can_merge_dragons
  by_cases hs : b.free_cells.any
      (fun fc => fc.is_empty || fc == FreeCellState.Card (Card.Dragon suit)) = true
  · simp only [hs, Bool.not_true, Bool.false_eq_true, if_false, Bool.and_eq_true,
      beq_iff_eq, decide_eq_true_eq]
    constructor
    · rintro ⟨h4, -⟩
      exact ⟨h4, (has_slot_iff b suit).1 hs⟩
    · rintro ⟨h4, -⟩
      refine ⟨h4, ?_⟩
      unfold Board.count_exposed_dragons at h4
      omega
  · rw [Bool.not_eq_true] at hs
    simp only [hs, Bool.not_false, if_true]
    constructor
    · intro h
      cases h
    · rintro ⟨-, hex⟩
      have := (has_slot_iff b suit).2 hex
      rw [hs] at this
      cases this

/-- `getD` through the cell-clearing map. -/
theorem getD_map_clear (l : List FreeCellState) (d : Card) (f : Nat) :
    (l.map (clearDragonCell d)).getD f FreeCellState.Empty
      = clearDragonCell d (l.getD f FreeCellState.Empty) := by
  induction l generalizing f with
  | nil => simp [clearDragonCell]
  | cons a t ih =>
      cases f with
      | zero => rfl
      | succ n => simpa using ih n

/-- What `lockFirstEmpty` does: it sets the first empty slot (in particular
some empty slot) to the lock, leaving everything else alone. -/
theorem lockFirstEmpty_spec (l : List FreeCellState) (s : Suit)
    (l2 : List FreeCellState) (h : lockFirstEmpty l s = some l2) :
    ∃ f < l.length, l.getD f FreeCellState.Empty = FreeCellState.Empty
      ∧ l2 = l.set f (FreeCellState.DragonLocked s) := by
  induction l generalizing l2 with
  | nil => cases h
  | cons a t ih =>
      unfold lockFirstEmpty at h
      by_cases ha : a.is_empty = true
      · rw [if_pos ha] at h
        cases h
        refine ⟨0, by simp, ?_, rfl⟩
        rw [is_empty_iff] at ha
        simpa using ha
      · rw [if_neg ha] at h
        cases ht : lockFirstEmpty t s with
        | none => rw [ht] at h; cases h
        | some r =>
            rw [ht] at h
            simp at h
            obtain ⟨f, hf, hemp, hset⟩ := ih r ht
            refine ⟨f + 1, by simp only [List.length_cons]; omega,
              by simpa using hemp, ?_⟩
            rw [← h, hset]
            rfl

/-- The board produced by a successful `merge_dragons`, componentwise. -/
theorem merge_result (b : Board) (suit : Suit)
    (hcm : b.can_merge_dragons suit = true) :
    ∃ cells2,
      lockFirstEmpty (b.free_cells.map (clearDragonCell (Card.Dragon suit))) suit
        = some cells2
      ∧ (b.merge_dragons suit).1.columns = b.columns.map (popDragonTop (Card.Dragon suit))
      ∧ (b.merge_dragons suit).1.free_cells = cells2
      ∧ (b.merge_dragons suit).1.foundations = b.foundations
      ∧ (b.merge_dragons suit).1.flower_placed = b.flower_placed := by
  have hsome := lockFirstEmpty_isSome
    (b.free_cells.map (clearDragonCell (Card.Dragon suit))) suit
    (merge_has_empty b suit hcm)
  cases hl : lockFirstEmpty (b.free_cells.map (clearDragonCell (Card.Dragon suit))) suit with
  | none => rw [hl] at hsome; cases hsome
  | some cells2 =>
      refine ⟨cells2, rfl, ?_, ?_, ?_, ?_⟩ <;>
        · unfold Board.merge_dragons
          rw [hcm]
          simp only [Bool.not_true, Bool.false_eq_true, if_false]
          rw [hl]

/-- A cleared cell never holds the dragon. -/
theorem clearDragonCell_ne (d : Card) (fc : FreeCellState) :
    clearDragonCell d fc ≠ FreeCellState.Card d := by
  unfold clearDragonCell
  by_cases h : (fc == FreeCellState.Card d) = true
  · rw [if_pos h]
    intro hc
    cases hc
  · rw [if_neg h]
    intro hc
    rw [hc] at h
    simp at h

/-- A cell clears to `Empty` exactly when it was empty or held the dragon. -/
theorem clear_eq_empty_iff (d : Card) (fc : FreeCellState) :
    clearDragonCell d fc = FreeCellState.Empty ↔
      (fc = FreeCellState.Empty ∨ fc = FreeCellState.Card d) := by
  unfold clearDragonCell
  by_cases h : (fc == FreeCellState.Card d) = true
  · rw [if_pos h]
    simp [eq_of_beq h]
  · rw [if_neg h]
    constructor
    · intro he
      exact Or.inl he
    · rintro (rfl | rfl)
      · rfl
      · simp at h

/-- Popping a dragon-topped column leaves no dragons when none were buried. -/
theorem popDragonTop_count_zero (d : Card) (col : List Card)
    (hbur : d ∉ col.dropLast) : (popDragonTop d col).count d = 0 := by
  unfold popDragonTop
  have hz : col.dropLast.count d = 0 := List.count_eq_zero.2 hbur
  by_cases h : col.getLast? = some d
  · rw [if_pos (by rw [beq_iff_eq]; exact h)]
    exact hz
  · rw [if_neg (by rw [beq_iff_eq]; exact h)]
    rw [count_last_split d col, hz, if_neg h]

/-- A list of zeros sums to zero. -/
theorem nat_sum_eq_zero (l : List Nat) (h : ∀ x ∈ l, x = 0) : l.sum = 0 := by
  induction l with
  | nil => rfl
  | cons a t ih =>
      rw [List.sum_cons, h a (List.mem_cons_self a t),
        ih (fun x hx => h x (List.mem_cons_of_mem a hx))]

/-- C4: `can_merge_dragons(s)` holds iff all four dragons of the suit are
exposed (none buried below a column top; the hypothesis fixes the board's
dragon count at four) and some free cell is `Empty` or holds one of those
dragons.  A successful `merge_dragons(s)` leaves zero `Dragon(s)` anywhere,
pops exactly the dragon-topped columns, changes no counter or flag, and sets
exactly one previously empty-or-vacated slot to `DragonLocked(s)`, clearing
the dragon-holding cells and leaving every other slot alone. -/
theorem merge_dragons_characterization (b : Board) (suit : Suit)
    (hWF : b.WF) (htotal : b.dragonTotal suit = 4) :
    (b.can_merge_dragons suit = true ↔
      (b.allDragonsExposed suit
        ∧ ∃ fc ∈ b.free_cells,
            fc = FreeCellState.Empty ∨ fc = FreeCellState.Card (Card.Dragon suit)))
    ∧ ((b.merge_dragons suit).2 = Except.ok () →
        ((b.merge_dragons suit).1.dragonTotal suit = 0
         ∧ (b.merge_dragons suit).1.columns
             = b.columns.map (popDragonTop (Card.Dragon suit))
         ∧ (b.merge_dragons suit).1.foundations = b.foundations
         ∧ (b.merge_dragons suit).1.flower_placed = b.flower_placed
         ∧ ∃ f < NUM_FREE_CELLS,
             (b.free_cells.getD f FreeCellState.Empty = FreeCellState.Empty
               ∨ b.free_cells.getD f FreeCellState.Empty
                   = FreeCellState.Card (Card.Dragon suit))
             ∧ (b.merge_dragons suit).1.free_cells.getD f FreeCellState.Empty
                 = FreeCellState.DragonLocked suit
             ∧ ∀ g, g ≠ f →
                 (b.merge_dragons suit).1.free_cells.getD g FreeCellState.Empty
                   = clearDragonCell (Card.Dragon suit)
                       (b.free_cells.getD g FreeCellState.Empty))) := by
  obtain ⟨hc8, hf3, hd3⟩ := hWF
  constructor
  · rw [can_merge_iff b suit, count_exposed_eq_iff b suit htotal]
  · intro hok
    have hcm := (merge_ok_iff_can b suit).1 hok
    obtain ⟨cells2, hl, hcols, hcells, hfd, hfl⟩ := merge_result b suit hcm
    obtain ⟨f, hflen, hfemp, hfset⟩ := lockFirstEmpty_spec _ suit cells2 hl
    rw [List.length_map] at hflen
    have hexp : b.allDragonsExposed suit :=
      (count_exposed_eq_iff b suit htotal).1 ((can_merge_iff b suit).1 hcm).1
    refine ⟨?_, hcols, hfd, hfl, f, by rw [← hf3]; exact hflen, ?_, ?_, ?_⟩
    · unfold Board.dragonTotal
      have hzc : ((b.merge_dragons suit).1.columns.map
          (fun col => col.count (Card.Dragon suit))).sum = 0 := by
        apply nat_sum_eq_zero
        intro x hx
        rw [hcols] at hx
        rw [List.map_map] at hx
        obtain ⟨col, hcolmem, hcx⟩ := List.mem_map.1 hx
        rw [← hcx]
        exact popDragonTop_count_zero (Card.Dragon suit) col (hexp col hcolmem)
      have hzf : (b.merge_dragons suit).1.free_cells.countP
          (fun fc => fc == FreeCellState.Card (Card.Dragon suit)) = 0 := by
        rw [hcells, hfset]
        rw [List.countP_eq_zero]
        intro a hmem
        rcases List.mem_or_eq_of_mem_set hmem with hmem2 | rfl
        · obtain ⟨x, -, hx⟩ := List.mem_map.1 hmem2
          rw [← hx]
          simpa using clearDragonCell_ne (Card.Dragon suit) x
        · simp
      rw [hzc, hzf]
    · rw [getD_map_clear, clear_eq_empty_iff] at hfemp
      exact hfemp
    · rw [hcells, hfset]
      exact getD_set_self _ f _ _ (by rw [List.length_map]; exact hflen)
    · intro g hg
      rw [hcells, hfset, getD_set_ne _ f g _ _ (fun he => hg he.symm), getD_map_clear]

/-- Boards with equal fields are equal. -/
theorem board_ext (b1 b2 : Board) (h1 : b1.columns = b2.columns)
    (h2 : b1.free_cells = b2.free_cells) (h3 : b1.foundations = b2.foundations)
    (h4 : b1.flower_placed = b2.flower_placed) : b1 = b2 := by
  cases b1
  cases b2
  simp only at h1 h2 h3 h4
  subst h1
  subst h2
  subst h3
  subst h4
  rfl

/-- Dropping all but the last element leaves exactly the last element. -/
theorem drop_length_sub_one (l : List Card) (c : Card) (h : l.getLast? = some c) :
    l.drop (l.length - 1) = [c] := by
  induction l with
  | nil => cases h
  | cons a t ih =>
      cases t with
      | nil =>
          simp only [List.getLast?_singleton, Option.some.injEq] at h
          subst h
          rfl
      | cons e t2 =>
          rw [List.getLast?_cons_cons] at h
          have h2 := ih h
          simp only [List.length_cons] at h2 ⊢
          rw [show t2.length + 1 + 1 - 1 = (t2.length + 1 - 1) + 1 by omega,
            List.drop_succ_cons]
          simpa using h2

/-- The board `move_card` produces on success. -/
theorem move_card_result (b : Board) (src dst : Location) (c : Card)
    (hc : b.card_at src = some c) (hcm : b.can_move src dst = true) :
    (b.move_card src dst).1 = ((b.take_card src).2).place_card dst c := by
  unfold Board.move_card
  rw [hcm]
  rcases hp : b.take_card src with ⟨c?, b1⟩
  have h1 : c? = b.card_at src := by rw [← take_card_fst b src, hp]
  rw [hc] at h1
  subst h1
  simp

/-- C10: for distinct in-range columns with a non-empty source, moving the top
card via `move_stack` at the last index is the same operation as `move_card`
between the two columns: both succeed under the same condition and produce
the same board. -/
theorem move_stack_single_eq_move_card (b : Board) (s d : Nat)
    (hWF : b.WF) (hs : s < NUM_COLUMNS) (hd : d < NUM_COLUMNS) (hne : s ≠ d)
    (hnonempty : b.columns.getD s [] ≠ []) :
    ((b.move_stack s ((b.columns.getD s []).length - 1) d).2 = Except.ok ()
      ↔ (b.move_card (Location.Column s) (Location.Column d)).2 = Except.ok ())
    ∧ ((b.move_stack s ((b.columns.getD s []).length - 1) d).2 = Except.ok () →
        (b.move_stack s ((b.columns.getD s []).length - 1) d).1
          = (b.move_card (Location.Column s) (Location.Column d)).1) := by
  obtain ⟨last, hlast⟩ : ∃ c, (b.columns.getD s []).getLast? = some c := by
    cases hg : (b.columns.getD s []).getLast? with
    | none => exact absurd (List.getLast?_eq_none_iff.1 hg) hnonempty
    | some c => exact ⟨c, rfl⟩
  have hlen : 0 < (b.columns.getD s []).length := List.length_pos.2 hnonempty
  have hdrop := drop_length_sub_one _ last hlast
  have htake : (b.columns.getD s []).take ((b.columns.getD s []).length - 1)
      = (b.columns.getD s []).dropLast := (List.dropLast_eq_take _).symm
  have hget : (b.columns.getD s []).get? ((b.columns.getD s []).length - 1)
      = some last := by
    rw [List.get?_eq_getElem?]
    have h2 : ((b.columns.getD s []).drop
        ((b.columns.getD s []).length - 1)).head? = some last := by
      rw [hdrop]
      rfl
    rwa [List.head?_drop] at h2
  have hcan : b.can_move (Location.Column s) (Location.Column d) = true ↔
      (b.column_top d = none ∨
        ∃ top, b.column_top d = some top ∧ last.can_stack_on top = true) := by
    unfold Board.can_move Board.card_at Board.column_top
    dsimp only
    rw [hlast]
    simp only [if_neg (Ne.symm hne)]
    cases ht : (b.columns.getD d []).getLast? with
    | none => simp
    | some top => simp
  obtain ⟨hiff, heff⟩ := move_stack_spec b s ((b.columns.getD s []).length - 1) d hs hd
  constructor
  · rw [hiff, move_card_ok_iff_can, hcan]
    constructor
    · rintro ⟨-, -, -, bc, hbc, hdisj⟩
      rw [hget] at hbc
      cases hbc
      exact hdisj
    · intro hdisj
      refine ⟨hne, by omega, ?_, last, hget, hdisj⟩
      rw [hdrop]
      exact List.chain'_singleton last
  · intro hok
    obtain ⟨hcols, hcells, hfd, hfl⟩ := heff hok
    have hcm : b.can_move (Location.Column s) (Location.Column d) = true := by
      rw [hcan]
      obtain ⟨-, -, -, bc, hbc, hdisj⟩ := hiff.1 hok
      rw [hget] at hbc
      cases hbc
      exact hdisj
    have hmc := move_card_result b (Location.Column s) (Location.Column d) last
      (by unfold Board.card_at Board.column_top; dsimp only; exact hlast) hcm
    apply board_ext
    · rw [hcols, hmc]
      unfold Board.take_card Board.place_card
      simp only
      rw [htake, hdrop, getD_set_ne _ s d _ _ hne]
    · rw [hcells, hmc]
      rfl
    · rw [hfd, hmc]
      rfl
    · rw [hfl, hmc]
      rfl

/-- Updating one entry of a list shifts a summed measure by exactly the
difference at that entry. -/
theorem map_sum_set {α M : Type} [AddCommMonoid M] (μ : α → M) (dflt : α)
    (xs : List α) (i : Nat) (v : α) (h : i < xs.length) :
    ((xs.set i v).map μ).sum + μ (xs.getD i dflt) = (xs.map μ).sum + μ v := by
  induction xs generalizing i with
  | nil => simp at h
  | cons a t ih =>
      cases i with
      | zero =>
          simp only [List.set_cons_zero, List.map_cons, List.sum_cons,
            List.getD_cons_zero]
          abel
      | succ n =>
          simp only [List.set_cons_succ, List.map_cons, List.sum_cons,
            List.getD_cons_succ]
          have h2 := ih n (by simpa using h)
          rw [add_assoc, h2, ← add_assoc]

/-- Updating one entry of a list shifts `countP` by the difference at that
entry. -/
theorem countP_set {α : Type} (p : α → Bool) (dflt : α)
    (xs : List α) (i : Nat) (v : α) (h : i < xs.length) :
    (xs.set i v).countP p + (if p (xs.getD i dflt) then 1 else 0)
      = xs.countP p + (if p v then 1 else 0) := by
  induction xs generalizing i with
  | nil => simp at h
  | cons a t ih =>
      cases i with
      | zero =>
          simp only [List.set_cons_zero, List.countP_cons, List.getD_cons_zero]
          omega
      | succ n =>
          simp only [List.set_cons_succ, List.countP_cons, List.getD_cons_succ]
          have h2 := ih n (by simpa using h)
          omega

/-- A non-default `getD` read is in range. -/
theorem getD_lt_length {α : Type} (xs : List α) (i : Nat) (dflt : α)
    (h : xs.getD i dflt ≠ dflt) : i < xs.length := by
  by_contra hge
  exact h (List.getD_eq_default xs dflt (by omega))

/-- `cardCount` depends only on the columns and free cells. -/
theorem cardCount_congr (b1 b2 : Board) (h1 : b1.columns = b2.columns)
    (h2 : b1.free_cells = b2.free_cells) : b1.cardCount = b2.cardCount := by
  unfold Board.cardCount
  rw [h1, h2]

/-- Taking a card removes exactly one card from the columns/free cells. -/
theorem take_card_cardCount (b : Board) (src : Location) (c : Card)
    (hc : b.card_at src = some c) :
    ((b.take_card src).2).cardCount + 1 = b.cardCount := by
  cases src with
  | Column col =>
      unfold Board.card_at Board.column_top at hc
      dsimp only at hc
      have hne : b.columns.getD col [] ≠ [] := by
        intro he
        rw [he] at hc
        cases hc
      have hlt : col < b.columns.length := getD_lt_length _ _ _ hne
      unfold Board.take_card Board.cardCount
      dsimp only
      have hsum := map_sum_set List.length ([] : List Card) b.columns col
        ((b.columns.getD col []).dropLast) hlt
      have hdl : ((b.columns.getD col []).dropLast).length + 1
          = (b.columns.getD col []).length := by
        rw [List.length_dropLast]
        have := List.length_pos.2 hne
        omega
      omega
  | FreeCell f =>
      unfold Board.card_at Board.free_cell_card at hc
      dsimp only at hc
      have hne : b.free_cells.getD f FreeCellState.Empty ≠ FreeCellState.Empty := by
        intro he
        rw [he] at hc
        cases hc
      have hlt : f < b.free_cells.length := getD_lt_length _ _ _ hne
      have hsome : ((b.free_cells.getD f FreeCellState.Empty).card).isSome = true := by
        rw [hc]
        rfl
      unfold Board.take_card Board.cardCount
      simp only [hsome, if_true]
      have hcp := countP_set (fun fc => fc.card.isSome) FreeCellState.Empty
        b.free_cells f FreeCellState.Empty hlt
      have hE : ((FreeCellState.Empty).card).isSome = false := rfl
      simp only [hsome, hE, if_true, Bool.false_eq_true, if_false] at hcp
      omega

/-- A successful foundation move removes exactly one card from the
columns/free cells. -/
theorem mtf_cardCount (b : Board) (src : Location)
    (hcm : b.can_move_to_foundation src = true) :
    (b.move_to_foundation src).1.cardCount + 1 = b.cardCount := by
  obtain ⟨c, hc⟩ : ∃ c, b.card_at src = some c := by
    rcases can_mtf_card_at b src hcm with hf | ⟨s, v, hn⟩
    · exact ⟨_, hf⟩
    · exact ⟨_, hn⟩
  obtain ⟨hcols, hcells, -, -⟩ := mtf_result b src hcm
  rw [cardCount_congr (b.move_to_foundation src).1 ((b.take_card src).2) hcols hcells]
  exact take_card_cardCount b src c hc

/-- The inner scan of `auto_move`: the counter only grows, each counted move
removes one card, a scan that counts nothing changes nothing, and after a
countless scan no source was eligible-and-safe. -/
theorem auto_fold_spec (srcs : List Location) (b : Board) (k : Nat) :
    ((srcs.foldl autoStep (b, k)).2 + ((srcs.foldl autoStep (b, k)).1).cardCount
        = k + b.cardCount)
    ∧ k ≤ (srcs.foldl autoStep (b, k)).2
    ∧ ((srcs.foldl autoStep (b, k)).2 = k → (srcs.foldl autoStep (b, k)).1 = b)
    ∧ ((srcs.foldl autoStep (b, k)).2 = k → ∀ src ∈ srcs,
        ¬(b.can_move_to_foundation src = true ∧ b.is_safe_to_auto src = true)) := by
  induction srcs generalizing b k with
  | nil => simp
  | cons src rest ih =>
      simp only [List.foldl_cons]
      by_cases h : (b.can_move_to_foundation src && b.is_safe_to_auto src) = true
      · rw [show autoStep (b, k) src = ((b.move_to_foundation src).1, k + 1) by
          unfold autoStep; rw [if_pos h]]
        have h9 := h
        rw [Bool.and_eq_true] at h9
        obtain ⟨hcan, -⟩ := h9
        obtain ⟨ih1, ih2, -, -⟩ := ih (b.move_to_foundation src).1 (k + 1)
        have hcc := mtf_cardCount b src hcan
        refine ⟨by omega, by omega, ?_, ?_⟩
        · intro he
          omega
        · intro he
          omega
      · rw [show autoStep (b, k) src = (b, k) by unfold autoStep; rw [if_neg h]]
        obtain ⟨ih1, ih2, ih3, ih4⟩ := ih b k
        refine ⟨ih1, ih2, ih3, ?_⟩
        intro he
        rintro src2 hmem ⟨hcan2, hsafe2⟩
        rcases List.mem_cons.1 hmem with rfl | hmem2
        · rw [hcan2, hsafe2] at h
          exact h rfl
        · exact ih4 he src2 hmem2 ⟨hcan2, hsafe2⟩

/-- The unfolding equation of `auto_move_loop` at positive fuel. -/
theorem auto_move_loop_succ (f : Nat) (b : Board) (m : Nat) :
    Board.auto_move_loop (f + 1) b m =
      (if b.auto_pass.2 = 0 then (b.auto_pass.1, m)
       else Board.auto_move_loop f b.auto_pass.1 (m + b.auto_pass.2)) := rfl

/-- With fuel exceeding the card count, `auto_move_loop` reaches a fixed
point of `auto_pass`. -/
theorem auto_move_loop_fix (fuel : Nat) (b : Board) (m : Nat)
    (hfuel : b.cardCount < fuel) :
    ((Board.auto_move_loop fuel b m).1).auto_pass.2 = 0 := by
  induction fuel generalizing b m with
  | zero => omega
  | succ f ih =>
      rw [auto_move_loop_succ]
      split
      · rename_i h
        have hb : b.auto_pass.1 = b :=
          (auto_fold_spec autoSources b 0).2.2.1 h
        dsimp only
        rw [hb]
        exact h
      · rename_i h
        apply ih
        have h2 := (auto_fold_spec autoSources b 0).1
        have hb : b.auto_pass = List.foldl autoStep (b, 0) autoSources := rfl
        rw [← hb] at h2
        omega

/-- C9: immediately after `auto_move` the board is a fixed point: a second
`auto_move` returns 0, and no column top or free cell is both
foundation-eligible and safe to auto-move. -/
theorem auto_move_fixed_point (b : Board) :
    ((b.auto_move.1).auto_move).2 = 0
    ∧ ∀ src ∈ autoSources,
        ¬((b.auto_move.1).can_move_to_foundation src = true
          ∧ (b.auto_move.1).is_safe_to_auto src = true) := by
  have hfix : (b.auto_move.1).auto_pass.2 = 0 :=
    auto_move_loop_fix (b.cardCount + 1) b 0 (by omega)
  constructor
  · show (Board.auto_move_loop ((b.auto_move.1).cardCount + 1) (b.auto_move.1) 0).2 = 0
    rw [auto_move_loop_succ]
    split
    · rfl
    · rename_i h
      exact absurd hfix h
  · exact (auto_fold_spec autoSources (b.auto_move.1) 0).2.2.2 hfix

/-- A list with a known last element splits as `dropLast ++ [last]`. -/
theorem eq_dropLast_append {α : Type} (l : List α) (c : α) (h : l.getLast? = some c) :
    l = l.dropLast ++ [c] := by
  induction l with
  | nil => cases h
  | cons a t ih =>
      cases t with
      | nil =>
          simp only [List.getLast?_singleton, Option.some.injEq] at h
          subst h
          rfl
      | cons e t2 =>
          rw [List.getLast?_cons_cons] at h
          have h2 := ih h
          rw [List.dropLast_cons₂, List.cons_append, ← h2]

/-- `cardsOf` of an append splits. -/
theorem cardsOf_append (l1 l2 : List Card) :
    cardsOf (l1 ++ l2) = cardsOf l1 + cardsOf l2 := by
  unfold cardsOf
  rw [← Multiset.coe_add]

/-- `cardsOf` of a singleton. -/
theorem cardsOf_singleton (c : Card) : cardsOf [c] = {c} := by
  unfold cardsOf
  rw [Multiset.coe_singleton]

/-- Popping a column's known top removes exactly that card from the summed
column multiset. -/
theorem colsSum_pop (cols : List (List Card)) (i : Nat) (c : Card)
    (hc : (cols.getD i []).getLast? = some c) :
    ((cols.set i ((cols.getD i []).dropLast)).map cardsOf).sum + {c}
      = (cols.map cardsOf).sum := by
  have hne : cols.getD i [] ≠ [] := fun he => by rw [he] at hc; cases hc
  have hlt := getD_lt_length _ _ _ hne
  have hsum := map_sum_set cardsOf ([] : List Card)
    cols i ((cols.getD i []).dropLast) hlt
  have hcoe : cardsOf (cols.getD i [])
      = cardsOf ((cols.getD i []).dropLast) + {c} := by
    conv_lhs => rw [eq_dropLast_append _ c hc]
    rw [cardsOf_append, cardsOf_singleton]
  rw [hcoe] at hsum
  have h2 : ((cols.set i ((cols.getD i []).dropLast)).map cardsOf).sum + {c}
        + cardsOf ((cols.getD i []).dropLast)
      = (cols.map cardsOf).sum + cardsOf ((cols.getD i []).dropLast) := by
    rw [← hsum]
    abel
  exact add_right_cancel h2

/-- Pushing a card onto a column adds exactly that card to the summed column
multiset. -/
theorem colsSum_push (cols : List (List Card)) (i : Nat) (c : Card)
    (hlt : i < cols.length) :
    ((cols.set i ((cols.getD i []) ++ [c])).map cardsOf).sum
      = (cols.map cardsOf).sum + {c} := by
  have hsum := map_sum_set cardsOf ([] : List Card)
    cols i ((cols.getD i []) ++ [c]) hlt
  rw [cardsOf_append, cardsOf_singleton] at hsum
  have h2 : ((cols.set i ((cols.getD i []) ++ [c])).map cardsOf).sum
        + cardsOf (cols.getD i [])
      = ((cols.map cardsOf).sum + {c}) + cardsOf (cols.getD i []) := by
    rw [hsum]
    abel
  exact add_right_cancel h2

/-- Clearing a card-holding cell removes exactly that card from the summed
cell multiset. -/
theorem cellsSum_clear (cells : List FreeCellState) (f : Nat) (c : Card)
    (hc : (cells.getD f FreeCellState.Empty).card = some c) :
    ((cells.set f FreeCellState.Empty).map cellCards).sum + {c}
      = (cells.map cellCards).sum := by
  have hcc : cells.getD f FreeCellState.Empty = FreeCellState.Card c :=
    (card_eq_some_iff _ c).1 hc
  have hne : cells.getD f FreeCellState.Empty ≠ FreeCellState.Empty := by
    rw [hcc]
    intro he
    cases he
  have hlt := getD_lt_length _ _ _ hne
  have hsum := map_sum_set cellCards FreeCellState.Empty cells f
    FreeCellState.Empty hlt
  rw [hcc] at hsum
  have hcard : cellCards (FreeCellState.Card c) = {c} := rfl
  have hempty : cellCards FreeCellState.Empty = 0 := rfl
  rw [hcard, hempty, add_zero] at hsum
  exact hsum

/-- Placing a card in an empty cell adds exactly that card to the summed cell
multiset. -/
theorem cellsSum_place (cells : List FreeCellState) (f : Nat) (c : Card)
    (hlt : f < cells.length)
    (hemp : cells.getD f FreeCellState.Empty = FreeCellState.Empty) :
    ((cells.set f (FreeCellState.Card c)).map cellCards).sum
      = (cells.map cellCards).sum + {c} := by
  have hsum := map_sum_set cellCards FreeCellState.Empty cells f
    (FreeCellState.Card c) hlt
  rw [hemp] at hsum
  have hcard : cellCards (FreeCellState.Card c) = {c} := rfl
  have hempty : cellCards FreeCellState.Empty = 0 := rfl
  rw [hcard, hempty, add_zero] at hsum
  exact hsum

/-- Taking the card `card_at` sees removes exactly it from the board
multiset. -/
theorem take_card_multiset (b : Board) (src : Location) (c : Card)
    (hc : b.card_at src = some c) :
    ((b.take_card src).2).cardMultiset + {c} = b.cardMultiset := by
  cases src with
  | Column col =>
      unfold Board.card_at Board.column_top at hc
      dsimp only at hc
      have h2 := colsSum_pop b.columns col c hc
      unfold Board.take_card Board.cardMultiset
      dsimp only
      rw [← h2]
      abel
  | FreeCell f =>
      unfold Board.card_at Board.free_cell_card at hc
      dsimp only at hc
      have h2 := cellsSum_clear b.free_cells f c hc
      have hsome : ((b.free_cells.getD f FreeCellState.Empty).card).isSome = true := by
        rw [hc]
        rfl
      unfold Board.take_card Board.cardMultiset
      simp only [hsome, if_true]
      rw [← h2]
      abel

/-- Placing a card at an in-range, empty-if-cell destination adds exactly it
to the board multiset. -/
theorem place_card_multiset (b : Board) (dst : Location) (c : Card)
    (hcol : ∀ dc, dst = Location.Column dc → dc < b.columns.length)
    (hcell : ∀ f, dst = Location.FreeCell f → f < b.free_cells.length
      ∧ b.free_cells.getD f FreeCellState.Empty = FreeCellState.Empty) :
    (b.place_card dst c).cardMultiset = b.cardMultiset + {c} := by
  cases dst with
  | Column dc =>
      have h2 := colsSum_push b.columns dc c (hcol dc rfl)
      unfold Board.place_card Board.cardMultiset
      dsimp only
      rw [h2]
      abel
  | FreeCell f =>
      obtain ⟨hlt, hemp⟩ := hcell f rfl
      have h2 := cellsSum_place b.free_cells f c hlt hemp
      unfold Board.place_card Board.cardMultiset
      dsimp only
      rw [h2]
      abel

/-- `take_card` keeps the fixed array sizes. -/
theorem wf_take_card (b : Board) (loc : Location) (h : b.WF) :
    ((b.take_card loc).2).WF := by
  obtain ⟨h1, h2, h3⟩ := h
  cases loc with
  | Column c =>
      refine ⟨?_, h2, h3⟩
      show (b.columns.set c (b.columns.getD c []).dropLast).length = NUM_COLUMNS
      simpa using h1
  | FreeCell f =>
      unfold Board.take_card
      dsimp only
      split
      · refine ⟨h1, ?_, h3⟩
        show (b.free_cells.set f FreeCellState.Empty).length = NUM_FREE_CELLS
        simpa using h2
      · exact ⟨h1, h2, h3⟩

/-- `place_card` keeps the fixed array sizes. -/
theorem wf_place_card (b : Board) (dst : Location) (c : Card) (h : b.WF) :
    (b.place_card dst c).WF := by
  obtain ⟨h1, h2, h3⟩ := h
  cases dst with
  | Column dc =>
      refine ⟨?_, h2, h3⟩
      show (b.columns.set dc ((b.columns.getD dc []) ++ [c])).length = NUM_COLUMNS
      simpa using h1
  | FreeCell f =>
      refine ⟨h1, ?_, h3⟩
      show (b.free_cells.set f (FreeCellState.Card c)).length = NUM_FREE_CELLS
      simpa using h2

/-- A successful `move_card` keeps the sizes and the card multiset. -/
theorem move_card_ok_inv (b : Board) (src dst : Location) (hWF : b.WF)
    (hd : dst.inRange) (hcm : b.can_move src dst = true) :
    ((b.move_card src dst).1).WF
    ∧ ((b.move_card src dst).1).cardMultiset = b.cardMultiset := by
  obtain ⟨c, hc⟩ := can_move_card_at b src dst hcm
  rw [move_card_result b src dst c hc hcm]
  have hWFt := wf_take_card b src hWF
  refine ⟨wf_place_card _ dst c hWFt, ?_⟩
  have hplace : (((b.take_card src).2).place_card dst c).cardMultiset
      = ((b.take_card src).2).cardMultiset + {c} := by
    apply place_card_multiset
    · rintro dc rfl
      rw [hWFt.1]
      exact hd
    · rintro f rfl
      refine ⟨by rw [hWFt.2.1]; exact hd, ?_⟩
      have hemp : b.free_cells.getD f FreeCellState.Empty = FreeCellState.Empty := by
        unfold Board.can_move at hcm
        rw [hc] at hcm
        dsimp only at hcm
        exact (is_empty_iff _).1 hcm
      cases src with
      | Column sc =>
          have : (b.take_card (Location.Column sc)).2.free_cells = b.free_cells := rfl
          rw [this]
          exact hemp
      | FreeCell sf =>
          obtain ⟨c2, hc2⟩ : ∃ c2, b.free_cell_card sf = some c2 := ⟨c, hc⟩
          rw [take_card_freecell_snd b sf c2 hc2]
          dsimp only
          by_cases hsf : sf = f
          · subst hsf
            rw [getD_set_self _ sf _ _ (getD_lt_length _ _ _ (by
                rw [(card_eq_some_iff _ c2).1 ((by exact hc2 : b.free_cell_card sf = some c2))]
                intro he
                cases he))]
          · rw [getD_set_ne _ sf f _ _ hsf]
            exact hemp
  rw [hplace, take_card_multiset b src c hc]

/-- One more numbered card on a foundation adds exactly that card. -/
theorem foundationCards_succ (s : Suit) (k : Nat) :
    foundationCards s (k + 1) = foundationCards s k + {Card.Numbered s (k + 1)} := by
  unfold foundationCards
  rw [List.range_succ, List.map_append]
  rw [← Multiset.coe_add]
  rfl

/-- Setting the flower flag adds the flower to the board multiset. -/
theorem cardMultiset_set_flower (b : Board) (h : b.flower_placed = false) :
    (Board.mk b.columns b.free_cells b.foundations true).cardMultiset
      = b.cardMultiset + {Card.Flower} := by
  unfold Board.cardMultiset
  dsimp only
  rw [h]
  simp only [if_true, Bool.false_eq_true, if_false]
  abel

/-- Incrementing one suit's foundation counter adds exactly the next numbered
card of that suit. -/
theorem cardMultiset_inc_foundation (b : Board) (s : Suit)
    (h3 : b.foundations.length = NUM_FOUNDATIONS) :
    (Board.mk b.columns b.free_cells
        (b.foundations.set (suit_index s) (b.foundations.getD (suit_index s) 0 + 1))
        b.flower_placed).cardMultiset
      = b.cardMultiset
        + {Card.Numbered s (b.foundations.getD (suit_index s) 0 + 1)} := by
  unfold NUM_FOUNDATIONS at h3
  unfold Board.cardMultiset
  dsimp only
  cases s with
  | Red =>
      rw [show suit_index Suit.Red = 0 from rfl]
      rw [getD_set_self _ 0 _ _ (by omega), getD_set_ne _ 0 1 _ _ (by omega),
        getD_set_ne _ 0 2 _ _ (by omega), foundationCards_succ]
      abel
  | Green =>
      rw [show suit_index Suit.Green = 1 from rfl]
      rw [getD_set_self _ 1 _ _ (by omega), getD_set_ne _ 1 0 _ _ (by omega),
        getD_set_ne _ 1 2 _ _ (by omega), foundationCards_succ]
      abel
  | Black =>
      rw [show suit_index Suit.Black = 2 from rfl]
      rw [getD_set_self _ 2 _ _ (by omega), getD_set_ne _ 2 0 _ _ (by omega),
        getD_set_ne _ 2 1 _ _ (by omega), foundationCards_succ]
      abel

/-- A successful `move_to_foundation` keeps the sizes and the card
multiset. -/
theorem mtf_ok_inv (b : Board) (src : Location) (hWF : b.WF)
    (hcm : b.can_move_to_foundation src = true) :
    ((b.move_to_foundation src).1).WF
    ∧ ((b.move_to_foundation src).1).cardMultiset = b.cardMultiset := by
  obtain ⟨hcols, hcells, hflower, hnum⟩ := mtf_result b src hcm
  have hWFt := wf_take_card b src hWF
  have htfd := take_card_foundations b src
  have htfl := take_card_flower b src
  rcases (can_mtf_iff b src).1 hcm with ⟨hf, hflag⟩ | ⟨s, v, hn, hv⟩
  · obtain ⟨hfl_true, hfd_same⟩ := hflower hf
    have hres : (b.move_to_foundation src).1
        = Board.mk ((b.take_card src).2).columns ((b.take_card src).2).free_cells
            ((b.take_card src).2).foundations true := by
      apply board_ext
      · rw [hcols]
      · rw [hcells]
      · rw [hfd_same, htfd]
      · rw [hfl_true]
    constructor
    · rw [hres]
      exact ⟨hWFt.1, hWFt.2.1, hWFt.2.2⟩
    · rw [hres, cardMultiset_set_flower _ (by rw [htfl]; exact hflag)]
      rw [take_card_multiset b src Card.Flower hf]
  · obtain ⟨hfd_set, hfl_same⟩ := hnum s v hn
    have hres : (b.move_to_foundation src).1
        = Board.mk ((b.take_card src).2).columns ((b.take_card src).2).free_cells
            (((b.take_card src).2).foundations.set (suit_index s)
              (((b.take_card src).2).foundations.getD (suit_index s) 0 + 1))
            ((b.take_card src).2).flower_placed := by
      apply board_ext
      · rw [hcols]
      · rw [hcells]
      · rw [hfd_set, htfd]
      · rw [hfl_same, htfl]
    constructor
    · rw [hres]
      exact ⟨hWFt.1, hWFt.2.1, by simpa using hWFt.2.2⟩
    · rw [hres, cardMultiset_inc_foundation _ s hWFt.2.2]
      rw [htfd]
      rw [hv]
      rw [take_card_multiset b src (Card.Numbered s v) hn]

/-- A successful `move_stack` keeps the sizes and the card multiset. -/
theorem move_stack_ok_inv (b : Board) (s i d : Nat) (hWF : b.WF)
    (hs : s < NUM_COLUMNS) (hd : d < NUM_COLUMNS)
    (hok : (b.move_stack s i d).2 = Except.ok ()) :
    ((b.move_stack s i d).1).WF
    ∧ ((b.move_stack s i d).1).cardMultiset = b.cardMultiset := by
  obtain ⟨hcols, hcells, hfd, hfl⟩ := (move_stack_spec b s i d hs hd).2 hok
  obtain ⟨hne, hlt, -, -⟩ := (move_stack_spec b s i d hs hd).1.1 hok
  obtain ⟨h1, h2, h3⟩ := hWF
  have hslen : s < b.columns.length := by omega
  have hdlen : d < (b.columns.set s ((b.columns.getD s []).take i)).length := by
    rw [List.length_set]
    omega
  constructor
  · refine ⟨?_, by rw [hcells]; exact h2, by rw [hfd]; exact h3⟩
    rw [hcols]
    simpa using h1
  · have hsum1 := map_sum_set cardsOf ([] : List Card) b.columns s
      ((b.columns.getD s []).take i) hslen
    have hsum2 := map_sum_set cardsOf ([] : List Card)
      (b.columns.set s ((b.columns.getD s []).take i)) d
      ((b.columns.getD d []) ++ (b.columns.getD s []).drop i) hdlen
    rw [getD_set_ne _ s d _ _ hne] at hsum2
    rw [cardsOf_append] at hsum2
    have hsplit : cardsOf (b.columns.getD s [])
        = cardsOf ((b.columns.getD s []).take i)
          + cardsOf ((b.columns.getD s []).drop i) := by
      rw [← cardsOf_append, List.take_append_drop]
    have hA1 : ((b.columns.set s ((b.columns.getD s []).take i)).map cardsOf).sum
          + cardsOf ((b.columns.getD s []).drop i)
        = (b.columns.map cardsOf).sum := by
      have e : (((b.columns.set s ((b.columns.getD s []).take i)).map cardsOf).sum
            + cardsOf ((b.columns.getD s []).drop i))
            + cardsOf ((b.columns.getD s []).take i)
          = (b.columns.map cardsOf).sum
            + cardsOf ((b.columns.getD s []).take i) := by
        rw [← hsum1, hsplit]
        abel
      exact add_right_cancel e
    have hgoal : (((b.columns.set s ((b.columns.getD s []).take i)).set d
          ((b.columns.getD d []) ++ (b.columns.getD s []).drop i)).map cardsOf).sum
        = (b.columns.map cardsOf).sum := by
      have hX : (((b.columns.set s ((b.columns.getD s []).take i)).set d
            ((b.columns.getD d []) ++ (b.columns.getD s []).drop i)).map cardsOf).sum
            + cardsOf (b.columns.getD d [])
          = (((b.columns.set s ((b.columns.getD s []).take i)).map cardsOf).sum
              + cardsOf ((b.columns.getD s []).drop i))
            + cardsOf (b.columns.getD d []) := by
        rw [hsum2]
        abel
      have hX2 := add_right_cancel hX
      rw [hX2, hA1]
    unfold Board.cardMultiset
    rw [hcols, hcells, hfd, hfl, hgoal]

/-- `Multiset.replicate` peels one element as an added singleton. -/
theorem replicate_succ_add (n : Nat) (a : Card) :
    Multiset.replicate (n + 1) a = Multiset.replicate n a + {a} := by
  rw [Multiset.replicate_succ, ← Multiset.singleton_add, add_comm]

/-- Popping dragon tops removes one dragon per dragon-topped column from the
summed column multiset. -/
theorem popf_colsSum (d : Card) (cols : List (List Card)) :
    ((cols.map (popDragonTop d)).map cardsOf).sum
      + Multiset.replicate (cols.countP (fun col => col.getLast? == some d)) d
    = (cols.map cardsOf).sum := by
  induction cols with
  | nil => simp
  | cons c t ih =>
      simp only [List.map_cons, List.sum_cons, List.countP_cons]
      by_cases h : c.getLast? = some d
      · have hb : (c.getLast? == some d) = true := by rw [beq_iff_eq]; exact h
        rw [hb]
        simp only [if_true]
        rw [show popDragonTop d c = c.dropLast from by
          unfold popDragonTop; rw [if_pos hb]]
        have hcoe : cardsOf c = cardsOf c.dropLast + {d} := by
          conv_lhs => rw [eq_dropLast_append c d h]
          rw [cardsOf_append, cardsOf_singleton]
        rw [replicate_succ_add, hcoe, ← ih]
        abel
      · have hb : (c.getLast? == some d) = false := by
          rw [beq_eq_false_iff_ne]
          exact h
        rw [hb]
        simp only [Bool.false_eq_true, if_false]
        rw [show popDragonTop d c = c from by unfold popDragonTop; rw [if_neg (by rw [hb]; intro hc; cases hc)]]
        rw [← ih]
        abel

/-- Clearing dragon cells removes one dragon per dragon cell from the summed
cell multiset. -/
theorem clearf_cellsSum (d : Card) (cells : List FreeCellState) :
    ((cells.map (clearDragonCell d)).map cellCards).sum
      + Multiset.replicate
          (cells.countP (fun fc => fc == FreeCellState.Card d)) d
    = (cells.map cellCards).sum := by
  induction cells with
  | nil => simp
  | cons fc t ih =>
      simp only [List.map_cons, List.sum_cons, List.countP_cons]
      by_cases h : fc = FreeCellState.Card d
      · have hb : (fc == FreeCellState.Card d) = true := by rw [beq_iff_eq]; exact h
        rw [hb]
        simp only [if_true]
        rw [show clearDragonCell d fc = FreeCellState.Empty from by
          unfold clearDragonCell; rw [if_pos hb]]
        subst h
        rw [replicate_succ_add, ← ih]
        show (0 : Multiset Card) + _ + _ = _
        rw [show cellCards (FreeCellState.Card d) = {d} from rfl]
        abel
      · have hb : (fc == FreeCellState.Card d) = false := by
          rw [beq_eq_false_iff_ne]
          exact h
        rw [hb]
        simp only [Bool.false_eq_true, if_false]
        rw [show clearDragonCell d fc = fc from by
          unfold clearDragonCell; rw [if_neg (by rw [hb]; intro hc; cases hc)]]
        rw [← ih]
        abel

/-- A successful `merge_dragons` keeps the sizes and the card multiset. -/
theorem merge_ok_inv (b : Board) (suit : Suit) (hWF : b.WF)
    (hok : (b.merge_dragons suit).2 = Except.ok ()) :
    ((b.merge_dragons suit).1).WF
    ∧ ((b.merge_dragons suit).1).cardMultiset = b.cardMultiset := by
  have hcm := (merge_ok_iff_can b suit).1 hok
  obtain ⟨cells2, hl, hcols, hcells, hfd, hfl⟩ := merge_result b suit hcm
  obtain ⟨f, hflen, hfemp, hfset⟩ := lockFirstEmpty_spec _ suit cells2 hl
  obtain ⟨h1, h2, h3⟩ := hWF
  constructor
  · refine ⟨by rw [hcols]; simpa using h1, ?_, by rw [hfd]; exact h3⟩
    rw [hcells, hfset]
    simpa using h2
  · have hlock : ((((b.free_cells.map (clearDragonCell (Card.Dragon suit))).set f
          (FreeCellState.DragonLocked suit))).map cellCards).sum
        = ((b.free_cells.map (clearDragonCell (Card.Dragon suit))).map cellCards).sum
          + Multiset.replicate 4 (Card.Dragon suit) := by
      have hs2 := map_sum_set cellCards FreeCellState.Empty
        (b.free_cells.map (clearDragonCell (Card.Dragon suit))) f
        (FreeCellState.DragonLocked suit) hflen
      rw [hfemp] at hs2
      rw [show cellCards FreeCellState.Empty = 0 from rfl,
        show cellCards (FreeCellState.DragonLocked suit)
          = Multiset.replicate 4 (Card.Dragon suit) from rfl, add_zero] at hs2
      exact hs2
    have hcount : b.columns.countP
          (fun col => col.getLast? == some (Card.Dragon suit))
        + b.free_cells.countP
            (fun fc => fc == FreeCellState.Card (Card.Dragon suit)) = 4 :=
      ((can_merge_iff b suit).1 hcm).1
    have hcolsS := popf_colsSum (Card.Dragon suit) b.columns
    have hcellsS := clearf_cellsSum (Card.Dragon suit) b.free_cells
    unfold Board.cardMultiset
    rw [hcols, hcells, hfd, hfl, hfset, hlock]
    rw [← hcount, Multiset.replicate_add]
    conv_rhs => rw [← hcolsS, ← hcellsS]
    abel

/-- The inner scan of `auto_move` keeps the sizes and the card multiset. -/
theorem auto_fold_inv (srcs : List Location) (b : Board) (k : Nat) (h : b.WF) :
    ((srcs.foldl autoStep (b, k)).1).WF
    ∧ ((srcs.foldl autoStep (b, k)).1).cardMultiset = b.cardMultiset := by
  induction srcs generalizing b k with
  | nil => exact ⟨h, rfl⟩
  | cons src rest ih =>
      simp only [List.foldl_cons]
      by_cases hc : (b.can_move_to_foundation src && b.is_safe_to_auto src) = true
      · rw [show autoStep (b, k) src = ((b.move_to_foundation src).1, k + 1) from by
          unfold autoStep; rw [if_pos hc]]
        have h9 := hc
        rw [Bool.and_eq_true] at h9
        obtain ⟨hcan, -⟩ := h9
        obtain ⟨hwf1, hcm1⟩ := mtf_ok_inv b src h hcan
        obtain ⟨hwf2, hcm2⟩ := ih (b.move_to_foundation src).1 (k + 1) hwf1
        exact ⟨hwf2, by rw [hcm2, hcm1]⟩
      · rw [show autoStep (b, k) src = (b, k) from by unfold autoStep; rw [if_neg hc]]
        exact ih b k h

/-- One `auto_pass` keeps the sizes and the card multiset. -/
theorem auto_pass_inv (b : Board) (h : b.WF) :
    (b.auto_pass.1).WF ∧ (b.auto_pass.1).cardMultiset = b.cardMultiset :=
  auto_fold_inv autoSources b 0 h

/-- `auto_move_loop` keeps the sizes and the card multiset. -/
theorem auto_loop_inv (fuel : Nat) (b : Board) (m : Nat) (h : b.WF) :
    ((Board.auto_move_loop fuel b m).1).WF
    ∧ ((Board.auto_move_loop fuel b m).1).cardMultiset = b.cardMultiset := by
  induction fuel generalizing b m with
  | zero => exact ⟨h, rfl⟩
  | succ f ih =>
      rw [auto_move_loop_succ]
      obtain ⟨hwf1, hcm1⟩ := auto_pass_inv b h
      split
      · dsimp only
        exact ⟨hwf1, hcm1⟩
      · obtain ⟨hwf2, hcm2⟩ := ih b.auto_pass.1 (m + b.auto_pass.2) hwf1
        exact ⟨hwf2, by rw [hcm2, hcm1]⟩

/-- Every successful operation keeps the fixed sizes and the card multiset. -/
theorem step_preserves (b b2 : Board) (hstep : Step b b2) (hWF : b.WF) :
    b2.WF ∧ b2.cardMultiset = b.cardMultiset := by
  cases hstep with
  | move_card src dst hs hd hok =>
      exact move_card_ok_inv b src dst hWF hd ((move_card_ok_iff_can b src dst).1 hok)
  | move_to_foundation src hs hok =>
      exact mtf_ok_inv b src hWF ((mtf_ok_iff_can b src).1 hok)
  | move_stack s i d hs hd hok =>
      exact move_stack_ok_inv b s i d hWF hs hd hok
  | merge_dragons suit hok =>
      exact merge_ok_inv b suit hWF hok
  | auto_move =>
      exact auto_loop_inv (b.cardCount + 1) b 0 hWF

/-- Every reachable board keeps the fixed sizes and the card multiset of its
starting board. -/
theorem reachable_inv (b0 b : Board) (hr : Reachable b0 b) (hWF : b0.WF) :
    b.WF ∧ b.cardMultiset = b0.cardMultiset := by
  induction hr with
  | refl => exact ⟨hWF, rfl⟩
  | tail hrest hstep ih =>
      obtain ⟨hwf1, hcm1⟩ := ih
      obtain ⟨hwf2, hcm2⟩ := step_preserves _ _ hstep hwf1
      exact ⟨hwf2, by rw [hcm2, hcm1]⟩

/-- The dealing fold distributes exactly the listed cards over the columns,
keeping 8 columns. -/
theorem deal_fold_spec (ps : List (Nat × Card)) (cols : List (List Card))
    (h8 : cols.length = NUM_COLUMNS) :
    ((ps.foldl dealStep cols).map cardsOf).sum
        = (cols.map cardsOf).sum + cardsOf (ps.map Prod.snd)
    ∧ (ps.foldl dealStep cols).length = NUM_COLUMNS := by
  induction ps generalizing cols with
  | nil => exact ⟨by simp [cardsOf], h8⟩
  | cons p rest ih =>
      simp only [List.foldl_cons, List.map_cons]
      have hlt : p.1 % NUM_COLUMNS < cols.length := by
        rw [h8]
        exact Nat.mod_lt _ (by unfold NUM_COLUMNS; omega)
      have hstep : ((dealStep cols p).map cardsOf).sum
          = (cols.map cardsOf).sum + {p.2} := by
        unfold dealStep
        exact colsSum_push cols (p.1 % NUM_COLUMNS) p.2 hlt
      have h8s : (dealStep cols p).length = NUM_COLUMNS := by
        unfold dealStep
        rw [List.length_set]
        exact h8
      obtain ⟨ihsum, ihlen⟩ := ih (dealStep cols p) h8s
      refine ⟨?_, ihlen⟩
      rw [ihsum, hstep]
      rw [show cardsOf (p.2 :: rest.map Prod.snd)
          = {p.2} + cardsOf (rest.map Prod.snd) from by
        unfold cardsOf
        rw [← Multiset.cons_coe, ← Multiset.singleton_add]]
      abel

/-- A freshly dealt board is well-formed and accounts for exactly the deck. -/
theorem deal_inv (deck : List Card) :
    (Board.deal_from_deck deck).WF
    ∧ (Board.deal_from_deck deck).cardMultiset = (deck : Multiset Card) := by
  obtain ⟨hsum, hlen⟩ := deal_fold_spec deck.enum
    (List.replicate NUM_COLUMNS []) (by simp)
  constructor
  · exact ⟨hlen, by simp [Board.deal_from_deck], by simp [Board.deal_from_deck]⟩
  · unfold Board.deal_from_deck Board.cardMultiset
    dsimp only
    rw [hsum, List.enum_map_snd]
    rw [show ((List.replicate NUM_COLUMNS ([] : List Card)).map cardsOf).sum = 0
      from by simp [cardsOf]]
    rw [show ((List.replicate NUM_FREE_CELLS FreeCellState.Empty).map cellCards).sum
        = 0 from by
      simp [show cellCards FreeCellState.Empty = 0 from rfl]]
    rw [show (List.replicate NUM_FOUNDATIONS (0 : Nat)).getD 0 0 = 0 from rfl,
      show (List.replicate NUM_FOUNDATIONS (0 : Nat)).getD 1 0 = 0 from rfl,
      show (List.replicate NUM_FOUNDATIONS (0 : Nat)).getD 2 0 = 0 from rfl]
    rw [show foundationCards Suit.Red 0 = 0 from rfl,
      show foundationCards Suit.Green 0 = 0 from rfl,
      show foundationCards Suit.Black 0 = 0 from rfl]
    unfold cardsOf
    simp

/-- C1: card conservation.  Every board reachable from `deal_from_deck` on a
40-card deck by successful operations accounts for exactly the dealt
multiset: all column cards, all free-cell cards, four dragons per locked
cell, the numbered cards `1..k` per foundation counter `k`, and the flower
when the flag is set. -/
theorem card_conservation (deck : List Card) (h40 : deck.length = 40)
    (b : Board) (hr : Reachable (Board.deal_from_deck deck) b) :
    b.cardMultiset = (deck : Multiset Card) := by
  obtain ⟨hwf0, hcm0⟩ := deal_inv deck
  obtain ⟨-, hcm⟩ := reachable_inv (Board.deal_from_deck deck) b hr hwf0
  rw [hcm, hcm0]

/-- An illegal `move_card` leaves the board untouched. -/
theorem move_card_not_can_eq (b : Board) (src dst : Location)
    (hcm : ¬ b.can_move src dst = true) : (b.move_card src dst).1 = b := by
  rw [Bool.not_eq_true] at hcm
  unfold Board.move_card
  rw [hcm]
  rfl

/-- An illegal `move_to_foundation` leaves the board untouched. -/
theorem mtf_not_can_eq (b : Board) (src : Location)
    (hcm : ¬ b.can_move_to_foundation src = true) :
    (b.move_to_foundation src).1 = b := by
  rw [Bool.not_eq_true] at hcm
  unfold Board.move_to_foundation
  rw [hcm]
  rfl

/-- An illegal `merge_dragons` leaves the board untouched. -/
theorem merge_not_can_eq (b : Board) (suit : Suit)
    (hcm : ¬ b.can_merge_dragons suit = true) :
    (b.merge_dragons suit).1 = b := by
  rw [Bool.not_eq_true] at hcm
  unfold Board.merge_dragons
  rw [hcm]
  rfl

/-- `move_stack` never touches the free cells. -/
theorem move_stack_free_cells (b : Board) (s2 i2 d2 : Nat) :
    ((b.move_stack s2 i2 d2).1).free_cells = b.free_cells := by
  unfold Board.move_stack
  dsimp only
  repeat' split
  all_goals rfl

/-- `take_card` never disturbs a locked slot. -/
theorem lock_stays_take (b : Board) (loc : Location) (i : Nat) (s : Suit)
    (h : b.free_cells.getD i FreeCellState.Empty = FreeCellState.DragonLocked s) :
    ((b.take_card loc).2).free_cells.getD i FreeCellState.Empty
      = FreeCellState.DragonLocked s := by
  cases loc with
  | Column c => exact h
  | FreeCell f =>
      unfold Board.take_card
      dsimp only
      split
      · rename_i hsome
        by_cases hfi : f = i
        · subst hfi
          rw [h] at hsome
          simp [FreeCellState.card] at hsome
        · show (b.free_cells.set f FreeCellState.Empty).getD i FreeCellState.Empty = _
          rw [getD_set_ne _ f i _ _ hfi]
          exact h
      · exact h

/-- `place_card` never disturbs a locked slot (its cell target differs). -/
theorem lock_stays_place (b : Board) (dst : Location) (c : Card) (i : Nat) (s : Suit)
    (h : b.free_cells.getD i FreeCellState.Empty = FreeCellState.DragonLocked s)
    (hne : ∀ f, dst = Location.FreeCell f → f ≠ i) :
    (b.place_card dst c).free_cells.getD i FreeCellState.Empty
      = FreeCellState.DragonLocked s := by
  cases dst with
  | Column dc => exact h
  | FreeCell f =>
      show (b.free_cells.set f (FreeCellState.Card c)).getD i FreeCellState.Empty = _
      rw [getD_set_ne _ f i _ _ (hne f rfl)]
      exact h

/-- `move_card` (successful or not) never disturbs a locked slot. -/
theorem lock_stays_move_card (b : Board) (src dst : Location) (i : Nat) (s : Suit)
    (h : b.free_cells.getD i FreeCellState.Empty = FreeCellState.DragonLocked s) :
    ((b.move_card src dst).1).free_cells.getD i FreeCellState.Empty
      = FreeCellState.DragonLocked s := by
  by_cases hcm : b.can_move src dst = true
  · obtain ⟨c, hc⟩ := can_move_card_at b src dst hcm
    rw [move_card_result b src dst c hc hcm]
    apply lock_stays_place
    · exact lock_stays_take b src i s h
    · rintro f rfl hfi
      subst hfi
      unfold Board.can_move at hcm
      rw [hc] at hcm
      dsimp only at hcm
      rw [(is_empty_iff _).1 hcm] at h
      cases h
  · rw [move_card_not_can_eq b src dst hcm]
    exact h

/-- `move_to_foundation` (successful or not) never disturbs a locked slot. -/
theorem lock_stays_mtf (b : Board) (src : Location) (i : Nat) (s : Suit)
    (h : b.free_cells.getD i FreeCellState.Empty = FreeCellState.DragonLocked s) :
    ((b.move_to_foundation src).1).free_cells.getD i FreeCellState.Empty
      = FreeCellState.DragonLocked s := by
  by_cases hcm : b.can_move_to_foundation src = true
  · obtain ⟨-, hcells, -, -⟩ := mtf_result b src hcm
    rw [hcells]
    exact lock_stays_take b src i s h
  · rw [mtf_not_can_eq b src hcm]
    exact h

/-- `merge_dragons` for any suit (successful or not) never disturbs a locked
slot. -/
theorem lock_stays_merge (b : Board) (suit2 : Suit) (i : Nat) (s : Suit)
    (h : b.free_cells.getD i FreeCellState.Empty = FreeCellState.DragonLocked s) :
    ((b.merge_dragons suit2).1).free_cells.getD i FreeCellState.Empty
      = FreeCellState.DragonLocked s := by
  by_cases hcm : b.can_merge_dragons suit2 = true
  · obtain ⟨cells2, hl, -, hcells, -, -⟩ := merge_result b suit2 hcm
    obtain ⟨f, hflen, hfemp, hfset⟩ := lockFirstEmpty_spec _ suit2 cells2 hl
    rw [hcells, hfset]
    have hclear : (b.free_cells.map (clearDragonCell (Card.Dragon suit2))).getD i
        FreeCellState.Empty = FreeCellState.DragonLocked s := by
      rw [getD_map_clear, h]
      rfl
    by_cases hfi : f = i
    · subst hfi
      rw [hclear] at hfemp
      cases hfemp
    · rw [getD_set_ne _ f i _ _ hfi]
      exact hclear
  · rw [merge_not_can_eq b suit2 hcm]
    exact h

/-- The `auto_move` scan never disturbs a locked slot. -/
theorem lock_stays_auto_fold (srcs : List Location) (b : Board) (k : Nat)
    (i : Nat) (s : Suit)
    (h : b.free_cells.getD i FreeCellState.Empty = FreeCellState.DragonLocked s) :
    ((srcs.foldl autoStep (b, k)).1).free_cells.getD i FreeCellState.Empty
      = FreeCellState.DragonLocked s := by
  induction srcs generalizing b k with
  | nil => exact h
  | cons src rest ih =>
      simp only [List.foldl_cons]
      by_cases hc : (b.can_move_to_foundation src && b.is_safe_to_auto src) = true
      · rw [show autoStep (b, k) src = ((b.move_to_foundation src).1, k + 1) from by
          unfold autoStep; rw [if_pos hc]]
        exact ih (b.move_to_foundation src).1 (k + 1) (lock_stays_mtf b src i s h)
      · rw [show autoStep (b, k) src = (b, k) from by unfold autoStep; rw [if_neg hc]]
        exact ih b k h

/-- `auto_move` never disturbs a locked slot. -/
theorem lock_stays_auto_loop (fuel : Nat) (b : Board) (m : Nat) (i : Nat) (s : Suit)
    (h : b.free_cells.getD i FreeCellState.Empty = FreeCellState.DragonLocked s) :
    ((Board.auto_move_loop fuel b m).1).free_cells.getD i FreeCellState.Empty
      = FreeCellState.DragonLocked s := by
  induction fuel generalizing b m with
  | zero => exact h
  | succ f ih =>
      rw [auto_move_loop_succ]
      have hpass : b.auto_pass = List.foldl autoStep (b, 0) autoSources := rfl
      have hp := lock_stays_auto_fold autoSources b 0 i s h
      rw [← hpass] at hp
      split
      · dsimp only
        exact hp
      · exact ih b.auto_pass.1 (m + b.auto_pass.2) hp

/-- Counting a card across the summed column multisets. -/
theorem count_colsSum (d : Card) (cols : List (List Card)) :
    Multiset.count d (cols.map cardsOf).sum
      = (cols.map (fun col => col.count d)).sum := by
  induction cols with
  | nil => rfl
  | cons c t ih =>
      simp only [List.map_cons, List.sum_cons, Multiset.count_add, ih]
      unfold cardsOf
      rw [Multiset.coe_count]

/-- Counting a suit's dragons across the summed cell multisets. -/
theorem count_cellsSum (s : Suit) (cells : List FreeCellState) :
    Multiset.count (Card.Dragon s) (cells.map cellCards).sum
      = cells.countP (fun fc => fc == FreeCellState.Card (Card.Dragon s))
        + 4 * cells.countP (fun fc => fc == FreeCellState.DragonLocked s) := by
  induction cells with
  | nil => rfl
  | cons fc t ih =>
      simp only [List.map_cons, List.sum_cons, Multiset.count_add, ih,
        List.countP_cons]
      cases fc with
      | Empty =>
          rw [show cellCards FreeCellState.Empty = 0 from rfl]
          simp [FreeCellState.Empty.sizeOf_spec]
      | Card c =>
          rw [show cellCards (FreeCellState.Card c) = {c} from rfl,
            Multiset.count_singleton]
          by_cases hc : c = Card.Dragon s
          · subst hc
            simp
            ring
          · have h1 : (Card.Dragon s = c) = False := by
              simp [Ne.symm hc]
            have h2 : (FreeCellState.Card c == FreeCellState.Card (Card.Dragon s))
                = false := by
              rw [beq_eq_false_iff_ne]
              intro he
              cases he
              exact hc rfl
            simp [h1, h2]
      | DragonLocked s2 =>
          rw [show cellCards (FreeCellState.DragonLocked s2)
            = Multiset.replicate 4 (Card.Dragon s2) from rfl,
            Multiset.count_replicate]
          by_cases hs2 : s2 = s
          · subst hs2
            simp
            ring
          · have h1 : (Card.Dragon s2 = Card.Dragon s) = False := by
              simp
              intro he
              exact hs2 he
            have h2 : (FreeCellState.DragonLocked s2 == FreeCellState.DragonLocked s)
                = false := by
              rw [beq_eq_false_iff_ne]
              intro he
              cases he
              exact hs2 rfl
            simp [h1, h2]

/-- Foundation card runs contain no dragons. -/
theorem count_foundationCards_dragon (s s2 : Suit) (k : Nat) :
    Multiset.count (Card.Dragon s) (foundationCards s2 k) = 0 := by
  unfold foundationCards
  rw [Multiset.coe_count, List.count_eq_zero]
  intro hmem
  obtain ⟨i, -, hi⟩ := List.mem_map.1 hmem
  cases hi

/-- The dragon count of the full board multiset: dragons on the board plus
four per locked cell of the suit. -/
theorem count_dragon_cardMultiset (b : Board) (s : Suit) :
    Multiset.count (Card.Dragon s) b.cardMultiset
      = b.dragonTotal s
        + 4 * b.free_cells.countP (fun fc => fc == FreeCellState.DragonLocked s) := by
  unfold Board.cardMultiset Board.dragonTotal
  rw [Multiset.count_add, Multiset.count_add, Multiset.count_add,
    Multiset.count_add, Multiset.count_add]
  rw [count_colsSum, count_cellsSum, count_foundationCards_dragon,
    count_foundationCards_dragon, count_foundationCards_dragon]
  have hfl : Multiset.count (Card.Dragon s)
      (if b.flower_placed then ({Card.Flower} : Multiset Card) else 0) = 0 := by
    split
    · rw [Multiset.count_singleton]
      simp
    · rfl
  rw [hfl]
  ring

/-- In-range `getD` reads are members. -/
theorem getD_mem {α : Type} (l : List α) (i : Nat) (d : α) (h : i < l.length) :
    l.getD i d ∈ l := by
  induction l generalizing i with
  | nil => simp at h
  | cons a t ih =>
      cases i with
      | zero => exact List.mem_cons_self a t
      | succ n =>
          simp only [List.getD_cons_succ]
          exact List.mem_cons_of_mem a (ih n (by simpa using h))

/-- C8: dragon-lock permanence.  On any board reached from a valid deal (four
`Dragon(s)` in the deck) in which free-cell slot `i` is `DragonLocked(s)`,
every operation — legal or not — leaves slot `i` locked with the same suit,
and `merge_dragons(s)` for the already-merged suit always fails. -/
theorem dragon_lock_permanence (deck : List Card) (s : Suit)
    (h40 : deck.length = 40) (hdeck : deck.count (Card.Dragon s) = 4)
    (b : Board) (hr : Reachable (Board.deal_from_deck deck) b)
    (i : Nat) (hlock : b.free_cells.getD i FreeCellState.Empty
      = FreeCellState.DragonLocked s) :
    (∀ src dst, ((b.move_card src dst).1).free_cells.getD i FreeCellState.Empty
        = FreeCellState.DragonLocked s)
    ∧ (∀ src, ((b.move_to_foundation src).1).free_cells.getD i FreeCellState.Empty
        = FreeCellState.DragonLocked s)
    ∧ (∀ s2 i2 d2, ((b.move_stack s2 i2 d2).1).free_cells.getD i FreeCellState.Empty
        = FreeCellState.DragonLocked s)
    ∧ (∀ suit2, ((b.merge_dragons suit2).1).free_cells.getD i FreeCellState.Empty
        = FreeCellState.DragonLocked s)
    ∧ ((b.auto_move.1).free_cells.getD i FreeCellState.Empty
        = FreeCellState.DragonLocked s)
    ∧ (b.merge_dragons s).2 ≠ Except.ok () := by
  refine ⟨fun src dst => lock_stays_move_card b src dst i s hlock,
    fun src => lock_stays_mtf b src i s hlock,
    fun s2 i2 d2 => by rw [move_stack_free_cells]; exact hlock,
    fun suit2 => lock_stays_merge b suit2 i s hlock,
    ?_, ?_⟩
  · have hauto : b.auto_move = Board.auto_move_loop (b.cardCount + 1) b 0 := rfl
    rw [hauto]
    exact lock_stays_auto_loop (b.cardCount + 1) b 0 i s hlock
  obtain ⟨hwf0, hcm0⟩ := deal_inv deck
  obtain ⟨hwf, hcm⟩ := reachable_inv _ b hr hwf0
  have hcount : Multiset.count (Card.Dragon s) b.cardMultiset = 4 := by
    rw [hcm, hcm0, Multiset.coe_count, hdeck]
  rw [count_dragon_cardMultiset] at hcount
  have hilt : i < b.free_cells.length := by
    by_contra hge
    rw [List.getD_eq_default _ _ (by omega)] at hlock
    cases hlock
  have hlocked : 0 < b.free_cells.countP
      (fun fc => fc == FreeCellState.DragonLocked s) := by
    rw [List.countP_pos_iff]
    exact ⟨_, getD_mem b.free_cells i FreeCellState.Empty hilt,
      by rw [hlock]; exact beq_self_eq_true _⟩
  have htotal : b.dragonTotal s = 0 := by omega
  intro hok
  have hcm2 := (merge_ok_iff_can b s).1 hok
  have h4 := ((can_merge_iff b s).1 hcm2).1
  unfold Board.count_exposed_dragons at h4
  unfold Board.dragonTotal at htotal
  have hle := tops_le_sum (Card.Dragon s) b.columns
  omega

/-! ### Witnesses: each hypothesis-bearing claim theorem applied at concrete
inputs. -/

/-- Witness for C1 at the unshuffled 40-card deck and the dealt board. -/
theorem card_conservation_witness :
    full_deck.length = 40
    ∧ (Board.deal_from_deck full_deck).cardMultiset
        = (full_deck : Multiset Card) :=
  ⟨by decide, card_conservation full_deck (by decide)
    (Board.deal_from_deck full_deck) Relation.ReflTransGen.refl⟩

/-- Witness for C2: a concrete illegal move errors and leaves the board
unchanged. -/
theorem illegal_move_no_op_witness :
    (sampleBoard.move_card (Location.Column 2) (Location.Column 0)).2
        = Except.error "Illegal move"
    ∧ (sampleBoard.move_card (Location.Column 2) (Location.Column 0)).1
        = sampleBoard :=
  ⟨rfl, (illegal_move_no_op sampleBoard).1 (Location.Column 2)
    (Location.Column 0) "Illegal move" rfl⟩

/-- Witness for C3 at a concrete two-card run moved onto a stackable top. -/
theorem move_stack_characterization_witness :
    (0 < NUM_COLUMNS ∧ 1 < NUM_COLUMNS)
    ∧ ((sampleBoard.move_stack 0 0 1).2 = Except.ok () ↔
        ((0 : Nat) ≠ 1 ∧ 0 < (sampleBoard.columns.getD 0 []).length
          ∧ isRun ((sampleBoard.columns.getD 0 []).drop 0)
          ∧ ∃ bc, (sampleBoard.columns.getD 0 []).get? 0 = some bc
              ∧ (sampleBoard.column_top 1 = none ∨
                  ∃ top, sampleBoard.column_top 1 = some top
                    ∧ bc.can_stack_on top = true)))
    ∧ ((sampleBoard.move_stack 0 0 1).2 = Except.ok () →
        (sampleBoard.move_stack 0 0 1).1.columns
          = (sampleBoard.columns.set 0
              ((sampleBoard.columns.getD 0 []).take 0)).set 1
              ((sampleBoard.columns.getD 1 [])
                ++ (sampleBoard.columns.getD 0 []).drop 0)
        ∧ (sampleBoard.move_stack 0 0 1).1.free_cells = sampleBoard.free_cells
        ∧ (sampleBoard.move_stack 0 0 1).1.foundations = sampleBoard.foundations
        ∧ (sampleBoard.move_stack 0 0 1).1.flower_placed
            = sampleBoard.flower_placed) :=
  ⟨⟨by decide, by decide⟩,
    (move_stack_characterization sampleBoard 0 0 1 (by decide) (by decide)).1,
    (move_stack_characterization sampleBoard 0 0 1 (by decide) (by decide)).2⟩

/-- Witness for C4 at a board with all four black dragons on column tops. -/
theorem merge_dragons_characterization_witness :
    (dragonBoard.WF ∧ dragonBoard.dragonTotal Suit.Black = 4)
    ∧ (dragonBoard.can_merge_dragons Suit.Black = true ↔
        (dragonBoard.allDragonsExposed Suit.Black
          ∧ ∃ fc ∈ dragonBoard.free_cells,
              fc = FreeCellState.Empty
                ∨ fc = FreeCellState.Card (Card.Dragon Suit.Black)))
    ∧ ((dragonBoard.merge_dragons Suit.Black).2 = Except.ok () →
        ((dragonBoard.merge_dragons Suit.Black).1.dragonTotal Suit.Black = 0
         ∧ (dragonBoard.merge_dragons Suit.Black).1.columns
             = dragonBoard.columns.map (popDragonTop (Card.Dragon Suit.Black))
         ∧ (dragonBoard.merge_dragons Suit.Black).1.foundations
             = dragonBoard.foundations
         ∧ (dragonBoard.merge_dragons Suit.Black).1.flower_placed
             = dragonBoard.flower_placed
         ∧ ∃ f < NUM_FREE_CELLS,
             (dragonBoard.free_cells.getD f FreeCellState.Empty
                 = FreeCellState.Empty
               ∨ dragonBoard.free_cells.getD f FreeCellState.Empty
                   = FreeCellState.Card (Card.Dragon Suit.Black))
             ∧ (dragonBoard.merge_dragons Suit.Black).1.free_cells.getD f
                 FreeCellState.Empty = FreeCellState.DragonLocked Suit.Black
             ∧ ∀ g, g ≠ f →
                 (dragonBoard.merge_dragons Suit.Black).1.free_cells.getD g
                     FreeCellState.Empty
                   = clearDragonCell (Card.Dragon Suit.Black)
                       (dragonBoard.free_cells.getD g FreeCellState.Empty))) :=
  ⟨⟨by decide, by decide⟩,
    (merge_dragons_characterization dragonBoard Suit.Black (by decide) (by decide)).1,
    (merge_dragons_characterization dragonBoard Suit.Black (by decide) (by decide)).2⟩

/-- Witness for C5 at a concrete legal column-to-column move. -/
theorem can_move_characterization_witness :
    ((Location.Column 0).inRange ∧ (Location.Column 1).inRange)
    ∧ (sampleBoard.can_move (Location.Column 0) (Location.Column 1) = true ↔
        ∃ card, sampleBoard.card_at (Location.Column 0) = some card ∧
          ((∀ f, Location.Column 1 = Location.FreeCell f →
              sampleBoard.free_cells.getD f FreeCellState.Empty
                = FreeCellState.Empty)
           ∧ (∀ d, Location.Column 1 = Location.Column d →
              (∀ sc, Location.Column 0 = Location.Column sc → sc ≠ d) ∧
                (sampleBoard.column_top d = none ∨
                  ∃ top, sampleBoard.column_top d = some top
                    ∧ card.can_stack_on top = true))))
    ∧ ((sampleBoard.move_card (Location.Column 0) (Location.Column 1)).2
          = Except.ok ()
        ↔ sampleBoard.can_move (Location.Column 0) (Location.Column 1) = true) :=
  ⟨⟨by decide, by decide⟩,
    (can_move_characterization sampleBoard (Location.Column 0)
      (Location.Column 1) (by decide) (by decide)).1,
    (can_move_characterization sampleBoard (Location.Column 0)
      (Location.Column 1) (by decide) (by decide)).2⟩

/-- Witness for C6 at a concrete foundation move of a red 1. -/
theorem move_to_foundation_correct_witness :
    ((sampleBoard.move_to_foundation (Location.Column 3)).2 = Except.ok () ↔
       (sampleBoard.card_at (Location.Column 3) = some Card.Flower
          ∧ sampleBoard.flower_placed = false) ∨
       (∃ s v, sampleBoard.card_at (Location.Column 3)
            = some (Card.Numbered s v) ∧
          sampleBoard.foundations.getD (suit_index s) 0 + 1 = v))
    ∧ ((sampleBoard.move_to_foundation (Location.Column 3)).2 = Except.ok () →
        ((∀ c, Location.Column 3 = Location.Column c →
            (sampleBoard.move_to_foundation (Location.Column 3)).1.columns
              = sampleBoard.columns.set c
                  ((sampleBoard.columns.getD c []).dropLast)
            ∧ (sampleBoard.move_to_foundation (Location.Column 3)).1.free_cells
                = sampleBoard.free_cells)
         ∧ (∀ f, Location.Column 3 = Location.FreeCell f →
            (sampleBoard.move_to_foundation (Location.Column 3)).1.free_cells
              = sampleBoard.free_cells.set f FreeCellState.Empty
            ∧ (sampleBoard.move_to_foundation (Location.Column 3)).1.columns
                = sampleBoard.columns)
         ∧ (sampleBoard.card_at (Location.Column 3) = some Card.Flower →
              (sampleBoard.move_to_foundation (Location.Column 3)).1.flower_placed
                  = true
              ∧ (sampleBoard.move_to_foundation (Location.Column 3)).1.foundations
                  = sampleBoard.foundations)
         ∧ (∀ s v, sampleBoard.card_at (Location.Column 3)
              = some (Card.Numbered s v) →
              (sampleBoard.move_to_foundation (Location.Column 3)).1.foundations
                = sampleBoard.foundations.set (suit_index s)
                    (sampleBoard.foundations.getD (suit_index s) 0 + 1)
              ∧ (sampleBoard.move_to_foundation (Location.Column 3)).1.flower_placed
                  = sampleBoard.flower_placed))) :=
  move_to_foundation_correct sampleBoard (Location.Column 3)

/-- Witness for C8 at the board obtained by merging the black dragons right
after the unshuffled deal. -/
theorem dragon_lock_permanence_witness :
    (full_deck.length = 40
      ∧ full_deck.count (Card.Dragon Suit.Black) = 4
      ∧ mergedBoard.free_cells.getD 0 FreeCellState.Empty
          = FreeCellState.DragonLocked Suit.Black)
    ∧ (∀ src dst, ((mergedBoard.move_card src dst).1).free_cells.getD 0
          FreeCellState.Empty = FreeCellState.DragonLocked Suit.Black)
    ∧ (∀ src, ((mergedBoard.move_to_foundation src).1).free_cells.getD 0
          FreeCellState.Empty = FreeCellState.DragonLocked Suit.Black)
    ∧ (∀ s2 i2 d2, ((mergedBoard.move_stack s2 i2 d2).1).free_cells.getD 0
          FreeCellState.Empty = FreeCellState.DragonLocked Suit.Black)
    ∧ (∀ suit2, ((mergedBoard.merge_dragons suit2).1).free_cells.getD 0
          FreeCellState.Empty = FreeCellState.DragonLocked Suit.Black)
    ∧ ((mergedBoard.auto_move.1).free_cells.getD 0 FreeCellState.Empty
        = FreeCellState.DragonLocked Suit.Black)
    ∧ (mergedBoard.merge_dragons Suit.Black).2 ≠ Except.ok () := by
  have hperm := dragon_lock_permanence full_deck Suit.Black (by decide)
    (by decide) mergedBoard
    (Relation.ReflTransGen.single
      (Step.merge_dragons (Board.deal_from_deck full_deck) Suit.Black rfl))
    0 (by decide)
  exact ⟨⟨by decide, by decide, by decide⟩, hperm.1, hperm.2.1, hperm.2.2.1,
    hperm.2.2.2.1, hperm.2.2.2.2.1, hperm.2.2.2.2.2⟩

/-- Witness for C9 at a concrete board. -/
theorem auto_move_fixed_point_witness :
    ((sampleBoard.auto_move.1).auto_move).2 = 0
    ∧ ∀ src ∈ autoSources,
        ¬((sampleBoard.auto_move.1).can_move_to_foundation src = true
          ∧ (sampleBoard.auto_move.1).is_safe_to_auto src = true) :=
  auto_move_fixed_point sampleBoard

/-- Witness for C10: moving the lone top card of column 0 onto the empty
column 2, by `move_stack` at the last index and by `move_card`. -/
theorem move_stack_single_eq_move_card_witness :
    (sampleBoard.WF ∧ 0 < NUM_COLUMNS ∧ 2 < NUM_COLUMNS ∧ (0 : Nat) ≠ 2
      ∧ sampleBoard.columns.getD 0 [] ≠ [])
    ∧ ((sampleBoard.move_stack 0
          ((sampleBoard.columns.getD 0 []).length - 1) 2).2 = Except.ok ()
        ↔ (sampleBoard.move_card (Location.Column 0) (Location.Column 2)).2
            = Except.ok ())
    ∧ ((sampleBoard.move_stack 0
          ((sampleBoard.columns.getD 0 []).length - 1) 2).2 = Except.ok () →
        (sampleBoard.move_stack 0
          ((sampleBoard.columns.getD 0 []).length - 1) 2).1
          = (sampleBoard.move_card (Location.Column 0) (Location.Column 2)).1) :=
  ⟨⟨by decide, by decide, by decide, by decide, by decide⟩,
    (move_stack_single_eq_move_card sampleBoard 0 2 (by decide) (by decide)
      (by decide) (by decide) (by decide)).1,
    (move_stack_single_eq_move_card sampleBoard 0 2 (by decide) (by decide)
      (by decide) (by decide) (by decide)).2⟩

end Szsol
